import Mathlib

set_option maxHeartbeats 4000000

/-!
Verification development for the `scrape-youtube` ingestion pipeline
(`src/carey-nieuwhof/scrape-youtube/utils.ts`).

The TypeScript source is shallowly embedded: pure helper functions become
Lean functions, JavaScript `Date` values become epoch-millisecond integers,
JavaScript `NaN`-producing operations return `Option` values (`none` = NaN /
null / undefined), and the stateful ingestion code becomes explicit state
passing over an `IngestState` record.  Machine reals never appear: every
quantity the program computes on the relevant paths is integral, and the
loosely typed results of JavaScript's `Number(...)` conversion are modelled
exactly with rationals (`Rat`).  Int division `/` below is Euclidean
division, which agrees with floor division for the positive literal
divisors used throughout.
-/

/- ## Calendar arithmetic (model of the ECMAScript `Date.UTC` / `getUTC*` core)

JavaScript dates are a millisecond count since the Unix epoch.  `Date.UTC`
and the `getUTC*` accessors convert between that count and proleptic
Gregorian civil dates.  We embed the conversion with the standard era-based
algorithm (the algorithm of the ECMAScript `MakeDay` / `YearFromTime`
operations up to algebraic rearrangement), and separately give a naive
leap-year-counting specification `specDaysFromCivil` used as the
independent statement of correctness for claim C7. -/

/-- Day number (days since 1970-01-01) of the civil date `(y, m, d)`,
month `m ∈ [1,12]`; `d` may lie outside the real month length, in which
case the date rolls over linearly (exactly as `Date.UTC` does). -/
def daysFromCivil (y m d : Int) : Int :=
  let y' := if m ≤ 2 then y - 1 else y
  let era := y' / 400
  let yoe := y' - era * 400
  let mp := if 2 < m then m - 3 else m + 9
  let doy := (153 * mp + 2) / 5 + d - 1
  let doe := yoe * 365 + yoe / 4 - yoe / 100 + doy
  era * 146097 + doe - 719468

/-- Civil date `(y, m, d)` of the day number `z` (days since 1970-01-01). -/
def civilFromDays (z : Int) : Int × Int × Int :=
  let z' := z + 719468
  let era := z' / 146097
  let doe := z' - era * 146097
  let yoe := (doe - doe / 1460 + doe / 36524 - doe / 146096) / 365
  let y := yoe + era * 400
  let doy := doe - (365 * yoe + yoe / 4 - yoe / 100)
  let mp := (5 * doy + 2) / 153
  let d := doy - (153 * mp + 2) / 5 + 1
  let m := if mp < 10 then mp + 3 else mp - 9
  (if m ≤ 2 then y + 1 else y, m, d)

/-- Gregorian leap-year test. -/
def isLeapYear (y : Int) : Bool :=
  (y % 4 = 0 && y % 100 ≠ 0) || y % 400 = 0

/-- Days preceding month `m` in a non-leap year (`m ∈ [1,12]`). -/
def monthPre (m : Int) : Int :=
  if m = 1 then 0 else if m = 2 then 31 else if m = 3 then 59
  else if m = 4 then 90 else if m = 5 then 120 else if m = 6 then 151
  else if m = 7 then 181 else if m = 8 then 212 else if m = 9 then 243
  else if m = 10 then 273 else if m = 11 then 304 else 334

/-- Number of leap years `y'` with `y' < y` (consistently extended to all
integers by floor division). -/
def leapsBefore (y : Int) : Int :=
  (y - 1) / 4 - (y - 1) / 100 + (y - 1) / 400

/-- Independent specification of the civil-date → epoch-day conversion:
count whole years since 1970, leap days, days preceding the month, and the
day of the month. -/
def specDaysFromCivil (y m d : Int) : Int :=
  365 * (y - 1970) + (leapsBefore y - leapsBefore 1970) + monthPre m +
    (if 2 < m ∧ isLeapYear y then 1 else 0) + (d - 1)

/- ## JavaScript string and number conversions

The source feeds string slices to JavaScript's `Number(...)` conversion
(`parseUploadDate`), trims strings (`toNonEmptyString`), and lower/upper
cases ASCII text.  `Number` is modelled exactly over the string shapes that
can occur at these call sites (whitespace padding, signs, decimal literals
with fraction and exponent, hex/octal/binary prefixes); the value is an
exact rational.  `Infinity` literals cannot occur in the 2- and 4-character
slices the program converts and are not modelled. -/

/-- Whitespace as recognised by JavaScript string trimming and `Number`
(code points: TAB LF VT FF CR SP NBSP OGHAM EN-QUAD..HAIR-SPACE LS PS
NNBSP MMSP IDEOGRAPHIC-SPACE ZWNBSP). -/
def isJsWs (c : Char) : Bool :=
  decide (c.toNat = 32) || decide (c.toNat = 9) || decide (c.toNat = 10) ||
  decide (c.toNat = 13) || decide (c.toNat = 11) || decide (c.toNat = 12) ||
  decide (c.toNat = 160) || decide (c.toNat = 5760) ||
  decide (8192 ≤ c.toNat ∧ c.toNat ≤ 8202) ||
  decide (c.toNat = 8232) || decide (c.toNat = 8233) || decide (c.toNat = 8239) ||
  decide (c.toNat = 8287) || decide (c.toNat = 12288) || decide (c.toNat = 65279)

/-- Strip leading and trailing JavaScript whitespace from a character list. -/
def jsTrimList (l : List Char) : List Char :=
  ((l.dropWhile isJsWs).reverse.dropWhile isJsWs).reverse

/-- Model of `String.prototype.trim`. -/
def jsTrim (s : String) : String := ⟨jsTrimList s.data⟩

/-- Decimal digit test (code points 48-57). -/
def isDigitCh (c : Char) : Bool := decide (48 ≤ c.toNat ∧ c.toNat ≤ 57)

/-- Numeric value of a decimal digit character. -/
def digVal (c : Char) : Nat := c.toNat - 48

/-- Value of a digit string read in base 10. -/
def digitsToNat (l : List Char) : Nat :=
  l.foldl (fun a c => 10 * a + digVal c) 0

/-- Greedily consume decimal digits, returning the accumulated value, the
number of digits consumed, and the rest of the input. -/
def munchDigits (a n : Nat) : List Char → Nat × Nat × List Char
  | [] => (a, n, [])
  | c :: r => if isDigitCh c then munchDigits (10 * a + digVal c) (n + 1) r else (a, n, c :: r)

/-- Hexadecimal value of a character, if any. -/
def hexVal (c : Char) : Option Nat :=
  if isDigitCh c then some (digVal c)
  else if 97 ≤ c.toNat ∧ c.toNat ≤ 102 then some (c.toNat - 87)
  else if 65 ≤ c.toNat ∧ c.toNat ≤ 70 then some (c.toNat - 55)
  else none

/-- Read a whole character list as digits of the given base. -/
def radixAux (base : Nat) : List Char → Nat → Option Nat
  | [], acc => some acc
  | c :: r, acc =>
    match hexVal c with
    | some v => if v < base then radixAux base r (base * acc + v) else none
    | none => none

/-- Value of a non-empty base-`base` digit string, `none` on any invalid digit. -/
def radixNum (base : Nat) (l : List Char) : Option Nat :=
  if l = [] then none else radixAux base l 0

/-- Exponent digits: the whole rest must be one or more decimal digits. -/
def expDigits (l : List Char) : Option Int :=
  match munchDigits 0 0 l with
  | (v, n, rest) => if n = 0 ∨ rest ≠ [] then none else some (v : Int)

/-- Optional exponent part of a JavaScript decimal literal. -/
def parseExp : List Char → Option Int
  | [] => some 0
  | c :: r =>
    if c.toNat = 101 ∨ c.toNat = 69 then
      match r with
      | c2 :: r2 =>
        if c2.toNat = 43 then expDigits r2
        else if c2.toNat = 45 then (expDigits r2).map (fun n => -n)
        else expDigits (c2 :: r2)
      | [] => expDigits []
    else none

/-- Scale a rational by a power of ten. -/
def applyExp (q : Rat) (e : Int) : Rat :=
  if 0 ≤ e then q * (10 : Rat) ^ e.toNat else q / (10 : Rat) ^ (-e).toNat

/-- Unsigned JavaScript decimal literal: digits, optional fraction, optional
exponent (at least one digit around the decimal point). -/
def parseDec (l : List Char) : Option Rat :=
  match munchDigits 0 0 l with
  | (ip, ipLen, r1) =>
    match r1 with
    | c :: r2 =>
      if c.toNat = 46 then
        match munchDigits 0 0 r2 with
        | (fp, fpLen, r3) =>
          if ipLen = 0 ∧ fpLen = 0 then none
          else
            match parseExp r3 with
            | some e => some (applyExp ((ip : Rat) + (fp : Rat) / (10 : Rat) ^ fpLen) e)
            | none => none
      else
        if ipLen = 0 then none
        else
          match parseExp (c :: r2) with
          | some e => some (applyExp (ip : Rat) e)
          | none => none
    | [] =>
      if ipLen = 0 then none
      else
        match parseExp [] with
        | some e => some (applyExp (ip : Rat) e)
        | none => none

/-- Signed JavaScript decimal literal. -/
def parseSigned (t : List Char) : Option Rat :=
  match t with
  | c :: r =>
    if c.toNat = 43 then parseDec r
    else if c.toNat = 45 then (parseDec r).map (fun q => -q)
    else parseDec (c :: r)
  | [] => parseDec []

/-- Model of JavaScript `Number(string)` on a character list: `none` is NaN. -/
def jsNumberCL (l : List Char) : Option Rat :=
  match jsTrimList l with
  | [] => some 0
  | c0 :: c1 :: r =>
    if c0.toNat = 48 ∧ (c1.toNat = 120 ∨ c1.toNat = 88) then
      (radixNum 16 r).map (fun n => (n : Rat))
    else if c0.toNat = 48 ∧ (c1.toNat = 111 ∨ c1.toNat = 79) then
      (radixNum 8 r).map (fun n => (n : Rat))
    else if c0.toNat = 48 ∧ (c1.toNat = 98 ∨ c1.toNat = 66) then
      (radixNum 2 r).map (fun n => (n : Rat))
    else parseSigned (c0 :: c1 :: r)
  | [c0] => parseSigned [c0]

/-- Model of JavaScript `Number(string)`. -/
def jsNumber (s : String) : Option Rat := jsNumberCL s.data

/-- Truncation toward zero, as in the ECMAScript ToIntegerOrInfinity step. -/
def ratTrunc (q : Rat) : Int := q.num.tdiv q.den

/- ## The `Date.UTC` model and `parseUploadDate` -/

/-- Model of `Date.UTC(y, m, d)` (month index `m` is 0-based) in epoch
milliseconds; `none` is NaN.  Follows ECMAScript `MakeFullYear` (years 0–99
shifted to 1900–1999), `MakeDay` (truncation, month overflow into the year)
and `TimeClip` (±8.64e15 ms range). -/
def dateUTCms (y m d : Rat) : Option Int :=
  let yi := ratTrunc y
  let yr := if 0 ≤ yi ∧ yi ≤ 99 then 1900 + yi else yi
  let mi := ratTrunc m
  let di := ratTrunc d
  let days := daysFromCivil (yr + mi / 12) (mi % 12 + 1) di
  if days < -100000000 ∨ 100000000 < days then none else some (days * 86400000)

/-- Model of `String.prototype.slice` for the in-range slices used here. -/
def jsSlice (s : String) (a b : Nat) : String := ⟨(s.data.drop a).take (b - a)⟩

/-- Embedding of `parseUploadDate` (utils.ts): parse an 8-character
`YYYYMMDD` string to epoch seconds at UTC midnight; `none` is `Number.NaN`. -/
def parseUploadDate (s : String) : Option Int :=
  if s.length ≠ 8 then none
  else
    match jsNumber (jsSlice s 0 4), jsNumber (jsSlice s 4 6), jsNumber (jsSlice s 6 8) with
    | some y, some mo, some d =>
      if mo < 1 ∨ 12 < mo ∨ d < 1 ∨ 31 < d then none
      else (dateUTCms y (mo - 1) d).map (fun ms => ms / 1000)
    | _, _, _ => none

/- ## URL model and `normalizeChannelUrl`

The source parses channel URLs with the WHATWG `URL` constructor.  We model
the subset of that parser the program's channel URLs exercise:
`scheme://host/path?query#hash` with ASCII lower-casing of scheme and host.
Userinfo, ports, IP-address canonicalization, percent-encoding and
dot-segment removal are not modelled; the model's parse fails on inputs
using them, even where the real parser succeeds, so theorems about URL
handling must not treat a model parse failure as a real one (the C8 guard
`normIdemGuard` below is false on every model parse failure for exactly
this reason).  Inputs are trimmed by the caller before parsing
(`normalizeChannelUrl` trims explicitly before `new URL`). -/

structure ModelURL where
  scheme : List Char
  host : List Char
  pathname : List Char
  search : List Char
  hash : List Char
deriving Repr, DecidableEq

/-- ASCII letter test (URL schemes). -/
def isAlphaChar (c : Char) : Bool :=
  decide (97 ≤ c.toNat ∧ c.toNat ≤ 122) || decide (65 ≤ c.toNat ∧ c.toNat ≤ 90)

/-- Characters terminating the host component. -/
def hostEnd (c : Char) : Bool := c = '/' || c = '?' || c = '#'

/-- Parse a URL of the modelled subset. -/
def parseURL (l : List Char) : Option ModelURL :=
  let scheme := l.takeWhile (fun c => c ≠ ':')
  let rest := l.dropWhile (fun c => c ≠ ':')
  if scheme = [] ∨ ¬scheme.all isAlphaChar then none
  else
    match rest with
    | ':' :: '/' :: '/' :: r2 =>
      let host := r2.takeWhile (fun c => ¬hostEnd c)
      let r3 := r2.dropWhile (fun c => ¬hostEnd c)
      if host = [] ∨ host.any (fun c => c = ':' ∨ c = '@') then none
      else
        let path := r3.takeWhile (fun c => c ≠ '?' ∧ c ≠ '#')
        let qh := r3.dropWhile (fun c => c ≠ '?' ∧ c ≠ '#')
        let search := qh.takeWhile (fun c => c ≠ '#')
        let hash := qh.dropWhile (fun c => c ≠ '#')
        some ⟨scheme.map Char.toLower, host.map Char.toLower,
          if path = [] then ['/'] else path, search, hash⟩
    | _ => none

/-- Serialize a model URL (`URL.prototype.toString`). -/
def serializeURL (u : ModelURL) : List Char :=
  u.scheme ++ (':' :: '/' :: '/' :: u.host) ++ u.pathname ++ u.search ++ u.hash

/-- Does `l` end with `suf`? -/
def endsWithCL (l suf : List Char) : Bool :=
  decide (suf.length ≤ l.length) && decide (l.drop (l.length - suf.length) = suf)

/-- The path segments stripped by the trailing-segment regex. -/
def strippableSegs : List (List Char) :=
  ["videos".data, "shorts".data, "streams".data, "featured".data, "community".data]

/-- The last `n` characters of `p`, lower-cased. -/
def lowTail (p : List Char) (n : Nat) : List Char :=
  (p.drop (p.length - n)).map Char.toLower

/-- Does `p` end with `/seg` (case-insensitively)? -/
def endsWithSeg (p seg : List Char) : Bool :=
  decide (seg.length + 1 ≤ p.length) && decide (lowTail p (seg.length + 1) = '/' :: seg)

/-- Does `p` end with `/seg/` (case-insensitively)? -/
def endsWithSegSlash (p seg : List Char) : Bool :=
  decide (seg.length + 2 ≤ p.length) &&
    decide (lowTail p (seg.length + 2) = '/' :: (seg ++ ['/']))

/-- Length of the trailing-segment regex match at the end of `p`, if any:
the regex is an alternation over `strippableSegs`, preceded by `/` and
optionally followed by `/`, anchored at the end (greedy on the optional
slash). -/
def stripMatchLen (p : List Char) : Option Nat :=
  match strippableSegs.find? (fun seg => endsWithSegSlash p seg) with
  | some seg => some (seg.length + 2)
  | none =>
    match strippableSegs.find? (fun seg => endsWithSeg p seg) with
    | some seg => some (seg.length + 1)
    | none => none

/-- Model of the regex replace stripping one trailing
`/videos|/shorts|/streams|/featured|/community` segment. -/
def stripTrailingSeg (p : List Char) : List Char :=
  match stripMatchLen p with
  | some n => p.take (p.length - n) ++ ['/']
  | none => p

/-- Model of the regex replace collapsing runs of slashes. -/
def collapseSlashes : List Char → List Char
  | [] => []
  | [c] => [c]
  | a :: b :: r =>
    if a = '/' ∧ b = '/' then collapseSlashes (b :: r) else a :: collapseSlashes (b :: r)

/-- Embedding of `normalizeChannelUrl` (utils.ts) on character lists. -/
def normalizeChannelUrlCL (raw : List Char) : List Char :=
  let trimmed := jsTrimList raw
  if trimmed = [] then raw
  else
    match parseURL trimmed with
    | none => trimmed
    | some u =>
      let p1 := stripTrailingSeg u.pathname
      let p2 := collapseSlashes p1
      let p3 := if endsWithCL p2 ['/'] then p2 else p2 ++ ['/']
      let ser := serializeURL { u with pathname := p3, search := [], hash := [] }
      if endsWithCL ser ['/'] then ser else ser ++ ['/']

/-- Embedding of `normalizeChannelUrl` (utils.ts). -/
def normalizeChannelUrl (s : String) : String := ⟨normalizeChannelUrlCL s.data⟩

/-- Leftmost match of the regex `@[^/]+` in a character list. -/
def findHandle : List Char → Option (List Char)
  | [] => none
  | '@' :: r =>
    match r.takeWhile (fun c => c ≠ '/') with
    | [] => findHandle r
    | tk => some ('@' :: tk)
  | _ :: r => findHandle r

/-- Embedding of `extractHandleFromUrl` (utils.ts): the `@handle` token of
the URL's path, or of the raw string when URL parsing fails. -/
def extractHandleFromUrl (url : String) : Option String :=
  match parseURL url.data with
  | some u =>
    match findHandle u.pathname with
    | some h => some ⟨h⟩
    | none => none
  | none =>
    match findHandle url.data with
    | some h => some ⟨h⟩
    | none => none

/- ## Loosely typed payload values and the normalization utilities -/

/-- A JSON / JavaScript value as it reaches the normalization helpers.
`Option JsValue` at a field models presence (`none` = field absent /
undefined).  `numNaN` stands for the non-finite numbers. -/
inductive JsValue where
  | str (s : String)
  | num (q : Rat)
  | numNaN
  | boolv (b : Bool)
  | nullv
deriving Repr, DecidableEq

/-- The scraper payload fields the embedded code reads (`RawVideo` in
utils.ts).  Every field is loosely typed. -/
structure RawVideo where
  id : Option JsValue := none
  title : Option JsValue := none
  timestamp : Option JsValue := none
  upload_date : Option JsValue := none
  description : Option JsValue := none
  duration : Option JsValue := none
  channel : Option JsValue := none
  channel_id : Option JsValue := none
  channel_url : Option JsValue := none
  channel_handle : Option JsValue := none
  playlist_channel : Option JsValue := none
  playlist_channel_id : Option JsValue := none
  playlist_channel_url : Option JsValue := none
  playlist_index : Option JsValue := none
  playlist_count : Option JsValue := none
  uploader : Option JsValue := none
  uploader_id : Option JsValue := none
  uploader_url : Option JsValue := none
  webpage_url : Option JsValue := none
  url : Option JsValue := none
  is_live : Option JsValue := none
  live_status : Option JsValue := none
  extractor : Option JsValue := none
  extractor_key : Option JsValue := none
  ie_key : Option JsValue := none
deriving Repr, DecidableEq

/-- ASCII lower-casing (`String.prototype.toLowerCase` on the ASCII data
the program handles). -/
def toLowerStr (s : String) : String := ⟨s.data.map Char.toLower⟩

/-- ASCII upper-casing (`String.prototype.toUpperCase` on ASCII data). -/
def toUpperStr (s : String) : String := ⟨s.data.map Char.toUpper⟩

/-- Embedding of `toNonEmptyString` (utils.ts). -/
def toNonEmptyString (v : Option JsValue) : Option String :=
  match v with
  | some (.str s) => if 0 < (jsTrim s).length then some (jsTrim s) else none
  | _ => none

/-- Embedding of `toOptionalString` (utils.ts): `toNonEmptyString ?? undefined`. -/
def toOptionalString (v : Option JsValue) : Option String := toNonEmptyString v

/-- Embedding of `toIntegerOrNull` (utils.ts). -/
def toIntegerOrNull (v : Option JsValue) : Option Int :=
  match v with
  | some (.num q) => if 0 ≤ q then some (ratTrunc q) else none
  | some (.str s) =>
    match jsNumber s with
    | some q => if 0 ≤ q then some (ratTrunc q) else none
    | none => none
  | _ => none

/-- Model of `new Date(ms)` for a rational millisecond argument: the
ECMAScript TimeClip (range check then truncation); `none` is an invalid
date. -/
def jsNewDateMs (q : Rat) : Option Int :=
  if (8640000000000000 : Rat) < q ∨ q < -(8640000000000000 : Rat) then none
  else some (ratTrunc q)

/-- The `upload_date` fallback inside `getUploadedAtDate`. -/
def uploadedAtFromUploadDate (v : RawVideo) : Option (Option Int) :=
  match v.upload_date with
  | some (.str s) =>
    match parseUploadDate s with
    | some secs => if 0 < secs then some (some (secs * 1000)) else none
    | none => none
  | _ => none

/-- Embedding of `getUploadedAtDate` (utils.ts).  The outer `Option` is
null-vs-Date; the inner `Option Int` is the date's millisecond value
(`none` = invalid date). -/
def getUploadedAtDate (v : RawVideo) : Option (Option Int) :=
  match v.timestamp with
  | some (.num q) =>
    if 0 < q then some (jsNewDateMs (q * 1000)) else uploadedAtFromUploadDate v
  | _ => uploadedAtFromUploadDate v

/-- Embedding of `resolveVideoUrl` (utils.ts): first non-empty of
webpage_url, url, and the synthesized watch URL (the synthesized candidate
is always non-empty, so the trailing fallback return is unreachable). -/
def resolveVideoUrl (v : RawVideo) (fallbackId : String) : String :=
  match toNonEmptyString v.webpage_url with
  | some c => c
  | none =>
    match toNonEmptyString v.url with
    | some c => c
    | none => "https://www.youtube.com/watch?v=" ++ fallbackId

/-- Embedding of `isLiveVideo` (utils.ts). -/
def isLiveVideo (v : RawVideo) : Bool :=
  match v.is_live with
  | some (.boolv b) => b
  | _ =>
    match v.live_status with
    | some (.str s) => toLowerStr s == "is_live" || toLowerStr s == "live"
    | _ => false

/- ## Sort-key snapshot and the auto-cutoff computation -/

/-- The latest-stored-video snapshot (`SortKeyInfo` in utils.ts):
`uploadDate` is the max stored `upload_date` string, `uploadedAt` the max
stored `uploaded_at` instant in epoch milliseconds (a valid date by
construction in `getLatestDatabaseSortKey`). -/
structure SortKeyInfo where
  uploadDate : Option String := none
  uploadedAt : Option Int := none
deriving Repr, DecidableEq

/-- Embedding of `uploadDateStringToDate` (utils.ts), returning epoch ms. -/
def uploadDateStringToDate (uploadDate : Option String) : Option Int :=
  match uploadDate with
  | none => none
  | some s =>
    if s = "" then none
    else
      match parseUploadDate s with
      | none => none
      | some secs => some (secs * 1000)

/-- Day number of an epoch-millisecond instant (ECMAScript `Day(t)`). -/
def msDay (ms : Int) : Int := ms / 86400000

/-- Left-pad a decimal rendering to two characters (`padStart(2, "0")`). -/
def pad2 (n : Int) : String :=
  let s := toString n
  if 2 ≤ s.length then s else ⟨List.replicate (2 - s.length) '0' ++ s.data⟩

/-- Embedding of `formatDateAsYyyymmdd` (utils.ts) on an epoch-ms instant,
via the `getUTCFullYear` / `getUTCMonth` / `getUTCDate` accessors. -/
def formatDateAsYyyymmdd (ms : Int) : String :=
  let c := civilFromDays (msDay ms)
  toString c.1 ++ pad2 c.2.1 ++ pad2 c.2.2

/-- Model of `cutoff.setUTCDate(cutoff.getUTCDate() - 1)`: rebuild the day
from the current UTC year and month with the day-of-month decremented,
keeping the time of day.  (The `TimeClip` range check cannot trigger one
day below any stored date except at the very boundary of representable
time, which no stored date reaches.) -/
def setUTCDatePrevDay (ms : Int) : Int :=
  let day := msDay ms
  let tod := ms - day * 86400000
  let c := civilFromDays day
  daysFromCivil c.1 c.2.1 (c.2.2 - 1) * 86400000 + tod

/-- Embedding of `computeDateAfter` (utils.ts).  The `uploadDate = some ""`
case mirrors the JavaScript `&&`/`??` chain exactly: the empty string is
falsy but not nullish, so it survives `??` and then fails the `!baseline`
guard, returning `undefined` without consulting `uploadedAt`. -/
def computeDateAfter (sortKey : Option SortKeyInfo) : Option String :=
  match sortKey with
  | none => none
  | some k =>
    match k.uploadDate with
    | some s =>
      if s = "" then none
      else
        match uploadDateStringToDate (some s) with
        | some ms => some (formatDateAsYyyymmdd (setUTCDatePrevDay ms))
        | none =>
          match k.uploadedAt with
          | some ms => some (formatDateAsYyyymmdd (setUTCDatePrevDay ms))
          | none => none
    | none =>
      match k.uploadedAt with
      | some ms => some (formatDateAsYyyymmdd (setUTCDatePrevDay ms))
      | none => none

/- ## Bootstrap state and the strategy planner -/

/-- Maximum playlist position/size observed in stored payloads
(`PlaylistCoverageInfo` in utils.ts). -/
structure PlaylistCoverageInfo where
  maxPlaylistIndex : Option Int := none
  maxPlaylistCount : Option Int := none
deriving Repr, DecidableEq

/-- One dedup-archive entry (`DownloadArchiveEntry` in utils.ts). -/
structure DownloadArchiveEntry where
  id : String
  extractorKeys : List String
deriving Repr, DecidableEq

/-- A stored channel row (`ChannelRow` in the store schema). -/
structure ChannelRow where
  id : Nat
  canonicalUrl : String
  externalId : Option String := none
  handle : Option String := none
  displayName : Option String := none
  updatedAt : Int := 0
deriving Repr, DecidableEq

/-- Bootstrap snapshot loaded from the store (`ChannelBootstrapState` in
utils.ts; the purely informational `channelMatchStrategy` log tag is not
modelled). -/
structure ChannelBootstrapState where
  channel : Option ChannelRow := none
  knownVideoIds : Finset String := ∅
  coverage : Option PlaylistCoverageInfo := none
  archiveEntries : List DownloadArchiveEntry := []

/-- Embedding of `needsPlaylistBackfill` (utils.ts). -/
def needsPlaylistBackfill (state : ChannelBootstrapState) : Bool :=
  if state.knownVideoIds.card = 0 then false
  else
    match state.coverage with
    | none => false
    | some cov =>
      match cov.maxPlaylistCount with
      | none => false
      | some c => if c ≤ 0 then false else decide ((state.knownVideoIds.card : Int) < c)

/- ## Dedup-archive construction -/

/-- `DEFAULT_ARCHIVE_EXTRACTOR_KEYS` (utils.ts). -/
def defaultArchiveExtractorKeys : List String := ["youtubetab", "youtube"]

/-- Key loop of `createDownloadArchiveFile`: emit one line per non-empty
lower-cased key not seen before; returns the updated seen set and the new
lines in order. -/
def archiveKeyLoop (id : String) : List String → List String → List String × List String
  | [], seen => (seen, [])
  | k :: rest, seen =>
    let normalized := toLowerStr k
    if normalized = "" then archiveKeyLoop id rest seen
    else
      let line := normalized ++ " " ++ id ++ "\n"
      if line ∈ seen then archiveKeyLoop id rest seen
      else
        let r := archiveKeyLoop id rest (line :: seen)
        (r.1, line :: r.2)

/-- The key set the archive uses for an entry: the recorded extractor keys,
falling back to the defaults when none were recorded. -/
def effectiveExtractorKeys (e : DownloadArchiveEntry) : List String :=
  if e.extractorKeys = [] then defaultArchiveExtractorKeys else e.extractorKeys

/-- Entry loop of `createDownloadArchiveFile`. -/
def archiveEntryLoop : List DownloadArchiveEntry → List String → List String × List String
  | [], seen => (seen, [])
  | e :: rest, seen =>
    let r1 := archiveKeyLoop e.id (effectiveExtractorKeys e) seen
    let r2 := archiveEntryLoop rest r1.1
    (r2.1, r1.2 ++ r2.2)

/-- The archive lines `createDownloadArchiveFile` would write. -/
def buildArchiveLines (entries : List DownloadArchiveEntry) : List String :=
  (archiveEntryLoop entries []).2

/-- Embedding of `createDownloadArchiveFile` (utils.ts): `none` when no
archive file is created (no entries, or no usable lines); the temporary
file itself is I/O and is modelled by its content. -/
def createDownloadArchiveFile (entries : List DownloadArchiveEntry) : Option (List String) :=
  if entries = [] then none
  else
    let lines := buildArchiveLines entries
    if lines = [] then none else some lines

/-- The `breakOnExistingEnabled` computation in `main` (utils.ts):
archive handle present AND known ids nonempty AND backfill not active. -/
def mainBreakOnExisting (state : ChannelBootstrapState) : Bool :=
  (createDownloadArchiveFile state.archiveEntries).isSome &&
    decide (0 < state.knownVideoIds.card) && !needsPlaylistBackfill state

/- ## Persistence model: channel upsert and video insert-or-ignore -/

/-- A video row as inserted (`VideoInsert` in utils.ts).  `updatedAt` is
the `new Date()` clock value, passed in as the `now` parameter. -/
structure VideoInsert where
  id : String
  channelId : Nat
  videoUrl : String
  title : String
  description : Option String
  durationSeconds : Option Int
  publishedTimestamp : Option Int
  uploadDate : Option String
  uploadedAt : Option (Option Int)
  scrapedAt : Int
  isLive : Bool
  rawData : RawVideo
  updatedAt : Int
deriving Repr, DecidableEq

/-- Embedding of `mapRawVideoToInsert` (utils.ts). -/
def mapRawVideoToInsert (video : RawVideo) (channelId : Nat) (scrapedAt now : Int) :
    Option VideoInsert :=
  match toNonEmptyString video.id with
  | none => none
  | some id =>
    some
      { id := id
        channelId := channelId
        videoUrl := resolveVideoUrl video id
        title := (toNonEmptyString video.title).getD id
        description := toOptionalString video.description
        durationSeconds := toIntegerOrNull video.duration
        publishedTimestamp := toIntegerOrNull video.timestamp
        uploadDate := toNonEmptyString video.upload_date
        uploadedAt := getUploadedAtDate video
        scrapedAt := scrapedAt
        isLive := isLiveVideo video
        rawData := video
        updatedAt := now }

/-- A channel insert payload (`ChannelInsert` in utils.ts). -/
structure ChannelInsert where
  canonicalUrl : String
  externalId : Option String
  handle : Option String
  displayName : Option String
  updatedAt : Int
deriving Repr, DecidableEq

/-- Embedding of `buildChannelInsertPayload` (utils.ts). -/
def buildChannelInsertPayload (video : RawVideo) (fallbackChannelUrl : String)
    (scrapedAt : Int) : ChannelInsert :=
  let canonicalSource :=
    match toNonEmptyString video.channel_url with
    | some s => s
    | none =>
      match toNonEmptyString video.playlist_channel_url with
      | some s => s
      | none =>
        match toNonEmptyString video.uploader_url with
        | some s => s
        | none => fallbackChannelUrl
  let canonicalUrl := normalizeChannelUrl canonicalSource
  let externalId :=
    match toNonEmptyString video.channel_id with
    | some s => some s
    | none =>
      match toNonEmptyString video.playlist_channel_id with
      | some s => some s
      | none => toNonEmptyString video.uploader_id
  let displayName :=
    match toNonEmptyString video.channel with
    | some s => some s
    | none =>
      match toNonEmptyString video.playlist_channel with
      | some s => some s
      | none => toNonEmptyString video.uploader
  let handle :=
    match toNonEmptyString video.channel_handle with
    | some h => some h
    | none => extractHandleFromUrl canonicalUrl
  { canonicalUrl := canonicalUrl
    externalId := externalId
    handle := handle
    displayName := displayName
    updatedAt := scrapedAt }

/-- Kept mutable context of an ingestion run (`IngestionContext` plus the
two store tables it writes to; `IngestionStats` is inlined). -/
structure IngestState where
  channelsTable : List ChannelRow := []
  nextChannelId : Nat := 1
  videosTable : List VideoInsert := []
  channel : Option ChannelRow := none
  knownIds : Finset String := ∅
  parsed : Nat := 0
  inserted : Nat := 0
  skippedExisting : Nat := 0
  invalid : Nat := 0

/-- The channel upsert (`insert … onConflictDoUpdate … returning`): keyed
by canonical URL; on conflict refresh the denormalized fields only. -/
def upsertChannel (payload : ChannelInsert) (st : IngestState) : ChannelRow × IngestState :=
  match st.channelsTable.find? (fun r => r.canonicalUrl = payload.canonicalUrl) with
  | some existing =>
    let updated : ChannelRow :=
      { existing with
        externalId := payload.externalId
        handle := payload.handle
        displayName := payload.displayName
        updatedAt := payload.updatedAt }
    (updated,
      { st with
        channelsTable :=
          st.channelsTable.map fun r =>
            if r.canonicalUrl = payload.canonicalUrl then updated else r })
  | none =>
    let row : ChannelRow :=
      { id := st.nextChannelId
        canonicalUrl := payload.canonicalUrl
        externalId := payload.externalId
        handle := payload.handle
        displayName := payload.displayName
        updatedAt := payload.updatedAt }
    (row,
      { st with
        channelsTable := st.channelsTable ++ [row]
        nextChannelId := st.nextChannelId + 1 })

/-- Embedding of `ensureChannelRecord` (utils.ts).  The store operations
succeed in this model; the retry wrapper around them is modelled
separately (`withDatabaseRetry`). -/
def ensureChannelRecord (video : RawVideo) (channelUrl : String) (scrapedAt : Int)
    (st : IngestState) : ChannelRow × IngestState :=
  match st.channel with
  | some c => (c, st)
  | none =>
    let payload := buildChannelInsertPayload video channelUrl scrapedAt
    let (record, st') := upsertChannel payload st
    (record, { st' with channel := some record })

/-- The video insert (`insert … onConflictDoNothing … returning`): the
table is keyed by the primary id; the returned id list is empty exactly
when the row already existed. -/
def insertVideoReturning (row : VideoInsert) (table : List VideoInsert) :
    List VideoInsert × List String :=
  if table.any (fun r => r.id = row.id) then (table, []) else (table ++ [row], [row.id])

/-- Embedding of `ingestVideo` (utils.ts). -/
def ingestVideo (video : RawVideo) (channelUrl : String) (scrapedAt now : Int)
    (st : IngestState) : IngestState :=
  let p := ensureChannelRecord video channelUrl scrapedAt st
  let channel := p.1
  let st1 := p.2
  match mapRawVideoToInsert video channel.id scrapedAt now with
  | none => { st1 with invalid := st1.invalid + 1 }
  | some mapped =>
    if mapped.id ∈ st1.knownIds then { st1 with skippedExisting := st1.skippedExisting + 1 }
    else
      let q := insertVideoReturning mapped st1.videosTable
      if q.2 = [] then
        { st1 with
          skippedExisting := st1.skippedExisting + 1
          knownIds := insert mapped.id st1.knownIds
          videosTable := q.1 }
      else
        { st1 with
          inserted := st1.inserted + 1
          knownIds := insert mapped.id st1.knownIds
          videosTable := q.1 }

/-- The per-record callback wired up in `main`: count the record as parsed,
then ingest it.  Folded over the parsed feed in emission order. -/
def processFeed (feed : List RawVideo) (channelUrl : String) (scrapedAt now : Int)
    (st : IngestState) : IngestState :=
  feed.foldl (fun s v => ingestVideo v channelUrl scrapedAt now { s with parsed := s.parsed + 1 }) st

/- ## The subprocess close handler -/

/-- Terminal outcome of the streamed run's promise. -/
inductive RunOutcome where
  | rejectedParse
  | rejectedIngestion
  | rejectedExit (code : Int)
  | resolved (parsed : Nat)
deriving Repr, DecidableEq

/-- Did the run terminate as failed (promise rejected)? -/
def isFailedOutcome : RunOutcome → Bool
  | .resolved _ => false
  | _ => true

/-- Embedding of the `close` handler of `scrapeChannel` (utils.ts).
`remainder` models the trailing partial stdout line: `none` = buffer blank,
`some none` = present but unparsable JSON, `some (some v)` = parses to a
record.  `ingestionErrorAfterDrain` is whether the shared first-error slot
is set once every in-flight ingestion task has settled. -/
def closeHandler (code : Int) (parsedCount : Nat) (remainder : Option (Option RawVideo))
    (ingestionErrorAfterDrain : Bool) : RunOutcome :=
  match remainder with
  | some none => .rejectedParse
  | _ =>
    let parsed := parsedCount + (match remainder with | some (some _) => 1 | _ => 0)
    if ingestionErrorAfterDrain then .rejectedIngestion
    else if code ≠ 0 ∧ parsed = 0 then .rejectedExit code
    else .resolved parsed

/- ## Transient-error classification and the retry wrapper -/

/-- A thrown JavaScript value as the retry machinery inspects it:
`isError` is whether it is an `Error` instance, `code` its string `code`
field (absent or non-string collapses to `none`), `cause` the nested cause.
Structural values cannot be reference-cyclic, so the source's
`maybeCause !== error` self-reference guard has no counterpart here. -/
inductive JsErr where
  | mk (isError : Bool) (code : Option String) (message : String) (cause : Option JsErr)

/-- The `cause` field. -/
def JsErr.causeOf : JsErr → Option JsErr
  | .mk _ _ _ c => c

/-- Embedding of `extractErrorCode` (utils.ts): the first usable code
along the cause chain, trimmed and upper-cased. -/
def extractErrorCode : JsErr → Option String
  | .mk _ code _ cause =>
    match code with
    | some s =>
      if jsTrim s ≠ "" then some (toUpperStr (jsTrim s))
      else
        match cause with
        | some c => extractErrorCode c
        | none => none
    | none =>
      match cause with
      | some c => extractErrorCode c
      | none => none

/-- `TRANSIENT_DB_ERROR_CODES` (utils.ts). -/
def transientCodes : List String :=
  ["ECONNRESET", "ETIMEDOUT", "ECONNREFUSED", "EPIPE", "57P01"]

/-- Is `needle` a contiguous substring of `hay` from the start? -/
def startsWithCL : List Char → List Char → Bool
  | _, [] => true
  | [], _ :: _ => false
  | a :: r, b :: s => a = b && startsWithCL r s

/-- Is `needle` a contiguous substring of `hay` (`String.prototype.includes`)? -/
def containsCL : List Char → List Char → Bool
  | [], needle => needle.isEmpty
  | a :: r, needle => startsWithCL (a :: r) needle || containsCL r needle

/-- The three connection-related message substrings (utils.ts). -/
def transientMessageHit (message : String) : Bool :=
  containsCL (toLowerStr message).data "connection reset".data ||
    containsCL (toLowerStr message).data "server closed the connection".data ||
    containsCL (toLowerStr message).data "terminating connection".data

/-- Embedding of `isTransientDatabaseError` (utils.ts). -/
def isTransientDatabaseError : JsErr → Bool
  | .mk isError code message cause =>
    (match extractErrorCode (.mk isError code message cause) with
     | some c => transientCodes.contains c
     | none => false) ||
    (match cause with
     | some c => isTransientDatabaseError c
     | none => false) ||
    (isError && transientMessageHit message)

/-- The error thrown by the unreachable line after the retry loop. -/
def retryFallbackErr : JsErr :=
  .mk true none "Database operation failed after retries" none

/-- Retry loop of `withDatabaseRetry`.  `op attempt` is the outcome of the
`attempt`-th execution of the wrapped operation; the returned list is the
sequence of delays slept before each retry.  `fuel` counts attempts still
allowed including the current one (maintained as
`attempt + fuel = maxAttempts + 1`). -/
def retryGo {α : Type} (op : Nat → Except JsErr α) (maxAttempts baseDelay maxDelay : Nat) :
    Nat → Nat → Except JsErr α × List Nat
  | _, 0 => (.error retryFallbackErr, [])
  | attempt, fuel + 1 =>
    match op attempt with
    | .ok v => (.ok v, [])
    | .error e =>
      if attempt = maxAttempts ∨ ¬isTransientDatabaseError e then (.error e, [])
      else
        let d := min (baseDelay * 2 ^ (attempt - 1)) maxDelay
        let r := retryGo op maxAttempts baseDelay maxDelay (attempt + 1) fuel
        (r.1, d :: r.2)

/-- Embedding of `withDatabaseRetry` (utils.ts), with the three
environment knobs as parameters (`CAREY_DB_MAX_RETRIES`,
`CAREY_DB_RETRY_BASE_MS`, `CAREY_DB_RETRY_MAX_MS`). -/
def withDatabaseRetry {α : Type} (dbMaxRetries dbRetryBaseMs dbRetryMaxMs : Nat)
    (op : Nat → Except JsErr α) : Except JsErr α × List Nat :=
  let maxAttempts := max 1 dbMaxRetries
  let baseDelay := max 50 dbRetryBaseMs
  let maxDelay := max baseDelay dbRetryMaxMs
  retryGo op maxAttempts baseDelay maxDelay 1 maxAttempts


/- ## Inputs and derived definitions used by the claim analyses -/

/-- Counterexample input for C1: one known id, stored maximum playlist
index equal to the stored maximum playlist count (10 of 10). -/
def c1State : ChannelBootstrapState :=
  { knownVideoIds := {"a"}
    coverage := some { maxPlaylistIndex := some 10, maxPlaylistCount := some 10 } }

/-- A stored row used by the C4 witness. -/
def c4Row : VideoInsert :=
  { id := "abc123", channelId := 1, videoUrl := "u", title := "t", description := none,
    durationSeconds := none, publishedTimestamp := none, uploadDate := none,
    uploadedAt := none, scrapedAt := 0, isLive := false, rawData := {}, updatedAt := 0 }

/-- The C4 witness state: one stored row, nothing in the in-memory set. -/
def c4State : IngestState := { videosTable := [c4Row] }

/-- The delays slept between attempts `a, a+1, …, k-1` (1-based attempts,
base delay `B`, cap `M`). -/
def retryDelays (B M a k : Nat) : List Nat :=
  (List.range (k - a)).map (fun i => min (B * 2 ^ (a - 1 + i)) M)

/-- A database operation whose first two attempts fail with a transient
connection reset and whose third fails with a non-transient error. -/
def c5op : Nat → Except JsErr Nat := fun i =>
  if i < 3 then Except.error (JsErr.mk true (some "ECONNRESET") "reset" none)
  else Except.error (JsErr.mk true none "boom" none)

theorem daysFromCivil_eq_spec (y m d : Int) (h1 : 1 ≤ m) (h2 : m ≤ 12) :
    daysFromCivil y m d = specDaysFromCivil y m d := by
  simp only [daysFromCivil, specDaysFromCivil, monthPre, leapsBefore, isLeapYear,
    Bool.or_eq_true, Bool.and_eq_true, decide_eq_true_eq, bne_iff_ne, ne_eq]
  interval_cases m <;> simp <;> omega

/-- Bound on the year-of-era quantity inside `civilFromDays`. -/
theorem civil_yoe_bound (doe : Int) (h : 0 ≤ doe) (h2 : doe < 146097) :
    0 ≤ (doe - doe / 1460 + doe / 36524 - doe / 146096) / 365 ∧
      (doe - doe / 1460 + doe / 36524 - doe / 146096) / 365 ≤ 399 := by
  omega

/-- Bound on the day-of-year quantity inside `civilFromDays`, the one fact
about the era-based algorithm that needs a year-of-era case split. -/
theorem civil_doy_bound (doe yoe : Int) (h : 0 ≤ doe) (h2 : doe < 146097)
    (hy : yoe = (doe - doe / 1460 + doe / 36524 - doe / 146096) / 365) :
    0 ≤ doe - (365 * yoe + yoe / 4 - yoe / 100) ∧
      doe - (365 * yoe + yoe / 4 - yoe / 100) ≤ 366 := by
  have hl : 0 ≤ yoe := by omega
  have hr : yoe ≤ 399 := by omega
  interval_cases yoe <;> omega

/-- Core of the roundtrip: phrased over named intermediate quantities so the
divisibility reasoning stays linear. -/
theorem roundtrip_core (z z' era doe yoe doy mp d m y : Int)
    (hz' : z' = z + 719468)
    (hera : era = z' / 146097) (hdoe : doe = z' - era * 146097)
    (hyoe : yoe = (doe - doe / 1460 + doe / 36524 - doe / 146096) / 365)
    (hdoy : doy = doe - (365 * yoe + yoe / 4 - yoe / 100))
    (hdoyb : 0 ≤ doy ∧ doy ≤ 366)
    (hmp : mp = (5 * doy + 2) / 153)
    (hd : d = doy - (153 * mp + 2) / 5 + 1)
    (hm : m = if mp < 10 then mp + 3 else mp - 9)
    (hy : y = if m ≤ 2 then yoe + era * 400 + 1 else yoe + era * 400) :
    daysFromCivil y m d = z := by
  have hdoeb : 0 ≤ doe ∧ doe < 146097 := by omega
  have hyoeb : 0 ≤ yoe ∧ yoe ≤ 399 := by
    rw [hyoe]
    exact civil_yoe_bound doe hdoeb.1 hdoeb.2
  have hmpb : 0 ≤ mp ∧ mp ≤ 11 := by omega
  have kn : (yoe + era * 400) / 400 = era := by
    rw [Int.add_mul_ediv_right _ _ (by norm_num : (400 : Int) ≠ 0),
      Int.ediv_eq_zero_of_lt hyoeb.1 (by omega)]
    omega
  by_cases h1 : mp < 10
  · have hm' : m = mp + 3 := by rw [hm, if_pos h1]
    have hm2 : ¬m ≤ 2 := by omega
    have hy' : y = yoe + era * 400 := by rw [hy, if_neg hm2]
    simp only [daysFromCivil]
    rw [if_neg hm2, if_pos (show 2 < m by omega), hy', hm']
    have e1 : 153 * (mp + 3 - 3) + 2 = 153 * mp + 2 := by ring
    rw [e1, kn]
    have e2 : yoe + era * 400 - era * 400 = yoe := by ring
    rw [e2]
    omega
  · have hm' : m = mp - 9 := by rw [hm, if_neg h1]
    have hm2 : m ≤ 2 := by omega
    have hy' : y = yoe + era * 400 + 1 := by rw [hy, if_pos hm2]
    simp only [daysFromCivil]
    rw [if_pos hm2, if_neg (show ¬2 < m by omega), hy', hm']
    have e1 : 153 * (mp - 9 + 9) + 2 = 153 * mp + 2 := by ring
    have e0 : yoe + era * 400 + 1 - 1 = yoe + era * 400 := by ring
    rw [e1, e0, kn]
    have e2 : yoe + era * 400 - era * 400 = yoe := by ring
    rw [e2]
    omega

theorem daysFromCivil_civilFromDays (z : Int) :
    daysFromCivil (civilFromDays z).1 (civilFromDays z).2.1 (civilFromDays z).2.2 = z := by
  simp only [civilFromDays]
  exact roundtrip_core z _ _ _ _ _ _ _ _ _ rfl rfl rfl rfl rfl
    (civil_doy_bound _ _ (by omega) (by omega) rfl) rfl rfl rfl rfl

/- ## C7 helper chain -/

theorem dropWhile_false (p : Char → Bool) (l : List Char) (h : ∀ c ∈ l, p c = false) :
    l.dropWhile p = l := by
  cases l with
  | nil => rfl
  | cons c r => rw [List.dropWhile_cons, h c (by simp)]; simp

theorem jsTrimList_eq_self (l : List Char) (h : ∀ c ∈ l, isJsWs c = false) :
    jsTrimList l = l := by
  unfold jsTrimList
  rw [dropWhile_false _ _ h, dropWhile_false, List.reverse_reverse]
  intro c hc
  exact h c (List.mem_reverse.mp hc)

theorem digit_not_ws (c : Char) (h : isDigitCh c = true) : isJsWs c = false := by
  simp only [isDigitCh, decide_eq_true_eq] at h
  simp only [isJsWs, Bool.or_eq_false_iff, decide_eq_false_iff_not]
  omega

theorem munchDigits_digits (l : List Char) : ∀ a n, (∀ c ∈ l, isDigitCh c = true) →
    munchDigits a n l = (l.foldl (fun a c => 10 * a + digVal c) a, n + l.length, []) := by
  induction l with
  | nil => intro a n _; simp [munchDigits]
  | cons c r ih =>
    intro a n h
    rw [munchDigits, if_pos (h c (by simp)), ih _ _ (fun x hx => h x (by simp [hx]))]
    simp only [List.foldl_cons, List.length_cons]
    refine Prod.ext rfl (Prod.ext ?_ rfl)
    show n + 1 + r.length = n + (r.length + 1)
    omega

theorem applyExp_zero (q : Rat) : applyExp q 0 = q := by
  simp [applyExp]

theorem parseDec_digits (l : List Char) (hne : l ≠ [])
    (h : ∀ c ∈ l, isDigitCh c = true) :
    parseDec l = some ((digitsToNat l : Nat) : Rat) := by
  have hlen : l.length ≠ 0 := by
    intro h0; exact hne (List.length_eq_zero.mp h0)
  simp only [parseDec]
  rw [munchDigits_digits l 0 0 h]
  simp only [Nat.zero_add]
  rw [if_neg hlen]
  simp only [parseExp]
  rw [applyExp_zero]
  rfl

theorem jsNumberCL_digits (l : List Char) (hne : l ≠ [])
    (h : ∀ c ∈ l, isDigitCh c = true) :
    jsNumberCL l = some ((digitsToNat l : Nat) : Rat) := by
  have hd : ∀ c ∈ l, 48 ≤ c.toNat ∧ c.toNat ≤ 57 := by
    intro c hc
    have := h c hc
    simpa [isDigitCh] using this
  unfold jsNumberCL
  rw [jsTrimList_eq_self l (fun c hc => digit_not_ws c (h c hc))]
  match l, hne with
  | [c0], _ =>
    have hc0 := hd c0 (by simp)
    dsimp only
    simp only [parseSigned]
    rw [if_neg (by omega), if_neg (by omega)]
    exact parseDec_digits [c0] (by simp) h
  | c0 :: c1 :: r, _ =>
    have hc1 := hd c1 (by simp)
    dsimp only
    rw [if_neg (by omega), if_neg (by omega), if_neg (by omega)]
    have hc0 := hd c0 (by simp)
    simp only [parseSigned]
    rw [if_neg (by omega), if_neg (by omega)]
    exact parseDec_digits (c0 :: c1 :: r) (by simp) h

theorem digitsToNat_fold_lt (l : List Char) : ∀ a, (∀ c ∈ l, isDigitCh c = true) →
    l.foldl (fun a c => 10 * a + digVal c) a < (a + 1) * 10 ^ l.length := by
  induction l with
  | nil => intro a _; simp
  | cons c r ih =>
    intro a h
    have hc := h c (by simp)
    have hdv : digVal c ≤ 9 := by
      simp only [isDigitCh, decide_eq_true_eq] at hc
      simp only [digVal]
      omega
    have h1 := ih (10 * a + digVal c) (fun x hx => h x (by simp [hx]))
    simp only [List.foldl_cons, List.length_cons]
    calc List.foldl (fun a c => 10 * a + digVal c) (10 * a + digVal c) r
        < (10 * a + digVal c + 1) * 10 ^ r.length := h1
      _ ≤ ((a + 1) * 10) * 10 ^ r.length := by
          apply Nat.mul_le_mul_right
          omega
      _ = (a + 1) * 10 ^ (r.length + 1) := by ring

theorem digitsToNat_lt (l : List Char) (h : ∀ c ∈ l, isDigitCh c = true) :
    digitsToNat l < 10 ^ l.length := by
  have := digitsToNat_fold_lt l 0 h
  simpa [digitsToNat] using this

theorem ratTrunc_natCast (n : Nat) : ratTrunc (n : Rat) = n := by
  simp [ratTrunc, Rat.num_natCast, Rat.den_natCast, Int.tdiv_one]

theorem ratTrunc_natCast_sub_one (n : Nat) (h : 1 ≤ n) :
    ratTrunc ((n : Rat) - 1) = (n : Int) - 1 := by
  have he : (n : Rat) - 1 = ((n - 1 : Nat) : Rat) := by
    rw [Nat.cast_sub h, Nat.cast_one]
  rw [he, ratTrunc_natCast]
  omega

theorem daysFromCivil_bound (y m d : Int) (h1 : 0 ≤ y) (h2 : y ≤ 11899)
    (h3 : 1 ≤ m) (h4 : m ≤ 12) (h5 : 1 ≤ d) (h6 : d ≤ 31) :
    -100000000 ≤ daysFromCivil y m d ∧ daysFromCivil y m d ≤ 100000000 := by
  simp only [daysFromCivil]
  split_ifs <;> omega

theorem dateUTCms_digits (y mo d : Nat) (hy : y ≤ 9999) (hmo1 : 1 ≤ mo) (hmo2 : mo ≤ 12)
    (hd1 : 1 ≤ d) (hd2 : d ≤ 31) :
    dateUTCms (y : Rat) ((mo : Rat) - 1) (d : Rat) =
      some (daysFromCivil (if y ≤ 99 then 1900 + (y : Int) else (y : Int)) (mo : Int) (d : Int)
        * 86400000) := by
  simp only [dateUTCms]
  rw [ratTrunc_natCast, ratTrunc_natCast_sub_one mo hmo1, ratTrunc_natCast]
  have h12 : ((mo : Int) - 1) / 12 = 0 :=
    Int.ediv_eq_zero_of_lt (by omega) (by omega)
  have hm12 : ((mo : Int) - 1) % 12 = (mo : Int) - 1 :=
    Int.emod_eq_of_lt (by omega) (by omega)
  rw [h12, hm12, add_zero]
  have hyr : (if 0 ≤ (y : Int) ∧ (y : Int) ≤ 99 then 1900 + (y : Int) else (y : Int)) =
      (if y ≤ 99 then 1900 + (y : Int) else (y : Int)) := by
    by_cases hc : y ≤ 99
    · rw [if_pos ⟨Int.natCast_nonneg y, by exact_mod_cast hc⟩, if_pos hc]
    · rw [if_neg (fun hh => hc (by exact_mod_cast hh.2)), if_neg hc]
  rw [hyr]
  have he : (mo : Int) - 1 + 1 = (mo : Int) := by ring
  rw [he]
  have hb := daysFromCivil_bound (if y ≤ 99 then 1900 + (y : Int) else (y : Int))
    (mo : Int) (d : Int)
    (by split_ifs <;> omega) (by split_ifs <;> omega)
    (by omega) (by omega) (by omega) (by omega)
  rw [if_neg (by omega)]

theorem parseUploadDate_digits (s : String) (hl : s.length = 8)
    (hdg : ∀ c ∈ s.data, isDigitCh c = true) :
    parseUploadDate s =
      if digitsToNat ((s.data.drop 4).take 2) < 1 ∨ 12 < digitsToNat ((s.data.drop 4).take 2) ∨
         digitsToNat ((s.data.drop 6).take 2) < 1 ∨ 31 < digitsToNat ((s.data.drop 6).take 2)
      then none
      else some (86400 * daysFromCivil
        (if digitsToNat (s.data.take 4) ≤ 99 then 1900 + (digitsToNat (s.data.take 4) : Int)
         else (digitsToNat (s.data.take 4) : Int))
        (digitsToNat ((s.data.drop 4).take 2) : Int)
        (digitsToNat ((s.data.drop 6).take 2) : Int)) := by
  have hld : s.data.length = 8 := hl
  have hA : jsNumber (jsSlice s 0 4) = some ((digitsToNat (s.data.take 4) : Nat) : Rat) := by
    show jsNumberCL (s.data.take 4) = _
    refine jsNumberCL_digits _ ?_ (fun c hc => hdg c (List.mem_of_mem_take hc))
    have : (s.data.take 4).length = 4 := by
      rw [List.length_take, hld]
      omega
    intro hnil
    rw [hnil] at this
    simp at this
  have hB : jsNumber (jsSlice s 4 6) =
      some ((digitsToNat ((s.data.drop 4).take 2) : Nat) : Rat) := by
    show jsNumberCL ((s.data.drop 4).take 2) = _
    refine jsNumberCL_digits _ ?_
      (fun c hc => hdg c (List.mem_of_mem_drop (List.mem_of_mem_take hc)))
    have : ((s.data.drop 4).take 2).length = 2 := by
      rw [List.length_take, List.length_drop, hld]
      omega
    intro hnil
    rw [hnil] at this
    simp at this
  have hC : jsNumber (jsSlice s 6 8) =
      some ((digitsToNat ((s.data.drop 6).take 2) : Nat) : Rat) := by
    show jsNumberCL ((s.data.drop 6).take 2) = _
    refine jsNumberCL_digits _ ?_
      (fun c hc => hdg c (List.mem_of_mem_drop (List.mem_of_mem_take hc)))
    have : ((s.data.drop 6).take 2).length = 2 := by
      rw [List.length_take, List.length_drop, hld]
      omega
    intro hnil
    rw [hnil] at this
    simp at this
  simp only [parseUploadDate]
  rw [if_neg (by simp [hl]), hA, hB, hC]
  dsimp only
  set mo := digitsToNat ((s.data.drop 4).take 2) with hmo
  set dd := digitsToNat ((s.data.drop 6).take 2) with hdd
  set yy := digitsToNat (s.data.take 4) with hyy
  have hyb : yy < 10000 := by
    have := digitsToNat_lt (s.data.take 4)
      (fun c hc => hdg c (List.mem_of_mem_take hc))
    have hl4 : (s.data.take 4).length = 4 := by rw [List.length_take, hld]; omega
    rw [hl4] at this
    simpa using this
  have hiff : ((mo : Rat) < 1 ∨ 12 < (mo : Rat) ∨ (dd : Rat) < 1 ∨ 31 < (dd : Rat)) ↔
      (mo < 1 ∨ 12 < mo ∨ dd < 1 ∨ 31 < dd) := by
    constructor <;> intro hh <;>
      rcases hh with hh | hh | hh | hh
    · exact Or.inl (by exact_mod_cast hh)
    · exact Or.inr (Or.inl (by exact_mod_cast hh))
    · exact Or.inr (Or.inr (Or.inl (by exact_mod_cast hh)))
    · exact Or.inr (Or.inr (Or.inr (by exact_mod_cast hh)))
    · exact Or.inl (by exact_mod_cast hh)
    · exact Or.inr (Or.inl (by exact_mod_cast hh))
    · exact Or.inr (Or.inr (Or.inl (by exact_mod_cast hh)))
    · exact Or.inr (Or.inr (Or.inr (by exact_mod_cast hh)))
  by_cases hr : mo < 1 ∨ 12 < mo ∨ dd < 1 ∨ 31 < dd
  · rw [if_pos (hiff.mpr hr), if_pos hr]
  · rw [if_neg (fun hh => hr (hiff.mp hh)), if_neg hr]
    push_neg at hr
    obtain ⟨hm1, hm2, hd1, hd2⟩ := hr
    rw [dateUTCms_digits yy mo dd (by omega) (by omega) (by omega) (by omega) (by omega),
      Option.map_some']
    congr 1
    have he : daysFromCivil (if yy ≤ 99 then 1900 + (yy : Int) else (yy : Int))
        (mo : Int) (dd : Int) * 86400000 =
        daysFromCivil (if yy ≤ 99 then 1900 + (yy : Int) else (yy : Int))
        (mo : Int) (dd : Int) * 86400 * 1000 := by ring
    rw [he, Int.mul_ediv_cancel _ (by norm_num)]
    ring

/-- C7 (amended): `parseUploadDate` rejects strings that are not exactly 8
characters and strings any of whose `YYYY`/`MM`/`DD` slices is not numeric;
on an all-digit 8-character string it rejects month or day outside
`[1,12]`/`[1,31]`, and otherwise returns the UTC-midnight epoch seconds of
the calendar date (with linear rollover of out-of-month days) whose year is
the `YYYY` value shifted to 1900–1999 when it is 0–99 (ECMAScript
two-digit-year behaviour), and is the `YYYY` value itself only above 99. -/
theorem parseUploadDate_spec (s : String) :
    (s.length ≠ 8 → parseUploadDate s = none) ∧
    (jsNumber (jsSlice s 0 4) = none ∨ jsNumber (jsSlice s 4 6) = none ∨
        jsNumber (jsSlice s 6 8) = none → parseUploadDate s = none) ∧
    (s.length = 8 → (∀ c ∈ s.data, isDigitCh c = true) →
      ((digitsToNat ((s.data.drop 4).take 2) < 1 ∨ 12 < digitsToNat ((s.data.drop 4).take 2) ∨
        digitsToNat ((s.data.drop 6).take 2) < 1 ∨ 31 < digitsToNat ((s.data.drop 6).take 2) →
        parseUploadDate s = none) ∧
       (1 ≤ digitsToNat ((s.data.drop 4).take 2) → digitsToNat ((s.data.drop 4).take 2) ≤ 12 →
        1 ≤ digitsToNat ((s.data.drop 6).take 2) → digitsToNat ((s.data.drop 6).take 2) ≤ 31 →
        parseUploadDate s = some (86400 * daysFromCivil
          (if digitsToNat (s.data.take 4) ≤ 99 then 1900 + (digitsToNat (s.data.take 4) : Int)
           else (digitsToNat (s.data.take 4) : Int))
          (digitsToNat ((s.data.drop 4).take 2) : Int)
          (digitsToNat ((s.data.drop 6).take 2) : Int))))) := by
  refine ⟨?_, ?_, ?_⟩
  · intro h
    simp only [parseUploadDate]
    rw [if_pos h]
  · intro h
    by_cases hl : s.length = 8
    · simp only [parseUploadDate]
      rw [if_neg (by simp [hl])]
      rcases h with h | h | h
      · rw [h]
      · rw [h]
        cases jsNumber (jsSlice s 0 4) <;> rfl
      · rw [h]
        cases jsNumber (jsSlice s 0 4) <;> cases jsNumber (jsSlice s 4 6) <;> rfl
    · simp only [parseUploadDate]
      rw [if_pos hl]
  · intro hl hdg
    constructor
    · intro hr
      rw [parseUploadDate_digits s hl hdg, if_pos hr]
    · intro h1 h2 h3 h4
      rw [parseUploadDate_digits s hl hdg, if_neg (by omega)]

/-- C7 witness: `"20240115"` parses to the epoch seconds of 2024-01-15 UTC
midnight. -/
theorem parseUploadDate_spec_witness :
    parseUploadDate "20240115" = some 1705276800 := by
  have h := ((parseUploadDate_spec "20240115").2.2 rfl (by decide)).2
    (by decide) (by decide) (by decide) (by decide)
  rw [h]
  decide

/-- C7 counterexample: the all-digit in-range string `"00991231"` does not
parse to the UTC-midnight epoch seconds of the year-99 date `0099-12-31`;
ECMAScript's two-digit-year shift makes it the epoch seconds of
`1999-12-31` instead. -/
theorem parseUploadDate_claim_false :
    parseUploadDate "00991231" = some (86400 * specDaysFromCivil 1999 12 31) ∧
      specDaysFromCivil 1999 12 31 ≠ specDaysFromCivil 99 12 31 ∧
      parseUploadDate "00991231" ≠ some (86400 * specDaysFromCivil 99 12 31) := by
  have h := parseUploadDate_digits "00991231" rfl (by decide)
  rw [if_neg (by decide)] at h
  refine ⟨?_, by decide, ?_⟩
  · rw [h]; decide
  · rw [h]; decide

/- ## Helper lemmas about characters -/

theorem upsertChannel_preserves (payload : ChannelInsert) (st : IngestState) :
    (upsertChannel payload st).2.videosTable = st.videosTable ∧
      (upsertChannel payload st).2.knownIds = st.knownIds ∧
      (upsertChannel payload st).2.parsed = st.parsed ∧
      (upsertChannel payload st).2.inserted = st.inserted ∧
      (upsertChannel payload st).2.skippedExisting = st.skippedExisting ∧
      (upsertChannel payload st).2.invalid = st.invalid := by
  unfold upsertChannel
  cases h : st.channelsTable.find? (fun r => r.canonicalUrl = payload.canonicalUrl) <;> simp

theorem ensureChannelRecord_preserves (v : RawVideo) (channelUrl : String) (scrapedAt : Int)
    (st : IngestState) :
    (ensureChannelRecord v channelUrl scrapedAt st).2.videosTable = st.videosTable ∧
      (ensureChannelRecord v channelUrl scrapedAt st).2.knownIds = st.knownIds ∧
      (ensureChannelRecord v channelUrl scrapedAt st).2.parsed = st.parsed ∧
      (ensureChannelRecord v channelUrl scrapedAt st).2.inserted = st.inserted ∧
      (ensureChannelRecord v channelUrl scrapedAt st).2.skippedExisting = st.skippedExisting ∧
      (ensureChannelRecord v channelUrl scrapedAt st).2.invalid = st.invalid := by
  unfold ensureChannelRecord
  cases h : st.channel with
  | some c => simp
  | none =>
    have hp := upsertChannel_preserves (buildChannelInsertPayload v channelUrl scrapedAt) st
    simp only []
    exact ⟨hp.1, hp.2.1, hp.2.2.1, hp.2.2.2.1, hp.2.2.2.2.1, hp.2.2.2.2.2⟩

/- ## C1 -/

/-- C1, counterexample: the claim says `needsPlaylistBackfill` returns
false when the stored maximum playlist index equals the stored maximum
playlist count; on this state (index 10 of count 10, one known id) the
function returns true, because the code actually compares the known-id
count with the playlist count. -/
theorem needsPlaylistBackfill_claim_false :
    c1State.coverage = some { maxPlaylistIndex := some 10, maxPlaylistCount := some 10 } ∧
      needsPlaylistBackfill c1State = true := by
  constructor
  · rfl
  · decide

/-- C1 (amended): the backfill decision is true exactly when the known-id
count is nonzero AND a stored maximum playlist count is present and
positive AND the known-id count is strictly less than that count (the
stored maximum playlist index plays no role). -/
theorem needsPlaylistBackfill_iff (st : ChannelBootstrapState) :
    needsPlaylistBackfill st = true ↔
      0 < st.knownVideoIds.card ∧
        ∃ cov c, st.coverage = some cov ∧ cov.maxPlaylistCount = some c ∧
          0 < c ∧ (st.knownVideoIds.card : Int) < c := by
  obtain ⟨ch, ids, cov, entries⟩ := st
  cases cov with
  | none => simp [needsPlaylistBackfill]
  | some covv =>
    obtain ⟨mi, mc⟩ := covv
    cases mc with
    | none => simp [needsPlaylistBackfill]
    | some c =>
      by_cases h0 : ids.card = 0
      · simp [needsPlaylistBackfill, h0]
      · by_cases hcpos : c ≤ 0
        · simp [needsPlaylistBackfill, h0, hcpos]
        · have hred : needsPlaylistBackfill ⟨ch, ids, some ⟨mi, some c⟩, entries⟩ =
              decide ((ids.card : Int) < c) := by
            unfold needsPlaylistBackfill
            dsimp only
            rw [if_neg h0, if_neg hcpos]
          rw [hred]
          simp only [decide_eq_true_eq, Option.some.injEq]
          constructor
          · intro hlt
            exact ⟨by omega, ⟨mi, some c⟩, c, rfl, rfl, by omega, hlt⟩
          · rintro ⟨h1, cov1, c1, hcov1, hc1, h2, h3⟩
            cases hcov1
            have : c1 = c := by
              have := hc1
              simpa using this.symm
            omega

/- ## C3 -/

/-- C3: once the trailing stdout buffer is not a malformed record, the run
rejects exactly when some dispatched persistence task failed or the
subprocess exited non-zero with zero records ever parsed; otherwise it
resolves with the total parsed count. -/
theorem closeHandler_spec (code : Int) (parsedCount : Nat)
    (remainder : Option (Option RawVideo)) (err : Bool) (total : Nat)
    (hwf : remainder ≠ some none)
    (htotal : total = parsedCount + (match remainder with | some (some _) => 1 | _ => 0)) :
    (isFailedOutcome (closeHandler code parsedCount remainder err) = true ↔
      err = true ∨ (code ≠ 0 ∧ total = 0)) ∧
    (¬(err = true ∨ (code ≠ 0 ∧ total = 0)) →
      closeHandler code parsedCount remainder err = .resolved total) := by
  subst htotal
  match remainder with
  | some none => exact absurd rfl hwf
  | none =>
    cases err <;> by_cases hc : code = 0 <;> by_cases hp : parsedCount = 0 <;>
      simp_all [closeHandler, isFailedOutcome]
  | some (some v) =>
    cases err <;> by_cases hc : code = 0 <;>
      simp_all [closeHandler, isFailedOutcome]

/-- C3 witness: a clean exit with two parsed records and no task failure
resolves with count 2. -/
theorem closeHandler_spec_witness :
    (isFailedOutcome (closeHandler 0 2 none false) = true ↔
      false = true ∨ ((0 : Int) ≠ 0 ∧ (2 : Nat) = 0)) ∧
    (¬(false = true ∨ ((0 : Int) ≠ 0 ∧ (2 : Nat) = 0)) →
      closeHandler 0 2 none false = .resolved 2) :=
  closeHandler_spec 0 2 none false 2 (by decide) rfl

/- ## C6 -/

/-- Trimming a string of JavaScript whitespace yields the empty string. -/
theorem jsTrim_ws_empty (s : String) (h : ∀ c ∈ s.data, isJsWs c = true) : jsTrim s = "" := by
  unfold jsTrim jsTrimList
  have h1 : s.data.dropWhile isJsWs = [] := by
    rw [List.dropWhile_eq_nil_iff]
    exact h
  rw [h1]
  rfl

/-- The id-normalization rejects exactly the claim's malformed shapes:
absent, non-string, or all-whitespace. -/
theorem toNonEmptyString_eq_none (v : Option JsValue)
    (h : v = none ∨ (∃ s, v = some (.str s) ∧ ∀ c ∈ s.data, isJsWs c = true) ∨
      ∀ s, v ≠ some (.str s)) :
    toNonEmptyString v = none := by
  rcases h with h | ⟨s, hs, hws⟩ | h
  · rw [h]; rfl
  · rw [hs]
    show (if 0 < (jsTrim s).length then some (jsTrim s) else none) = none
    rw [jsTrim_ws_empty s hws]
    rfl
  · cases hv : v with
    | none => rfl
    | some jv =>
      cases jv with
      | str s => exact absurd hv (h s)
      | num q => rfl
      | numNaN => rfl
      | boolv b => rfl
      | nullv => rfl

/-- C6: a record whose id field is absent, non-string, or all-whitespace
increments the invalid counter by one, writes no video row, and leaves the
other counters and the known-id set unchanged. -/
theorem ingest_invalid_spec (v : RawVideo) (channelUrl : String) (scrapedAt now : Int)
    (st : IngestState)
    (hid : v.id = none ∨ (∃ s, v.id = some (.str s) ∧ ∀ c ∈ s.data, isJsWs c = true) ∨
      ∀ s, v.id ≠ some (.str s)) :
    (ingestVideo v channelUrl scrapedAt now st).invalid = st.invalid + 1 ∧
      (ingestVideo v channelUrl scrapedAt now st).videosTable = st.videosTable ∧
      (ingestVideo v channelUrl scrapedAt now st).knownIds = st.knownIds ∧
      (ingestVideo v channelUrl scrapedAt now st).inserted = st.inserted ∧
      (ingestVideo v channelUrl scrapedAt now st).skippedExisting = st.skippedExisting ∧
      (ingestVideo v channelUrl scrapedAt now st).parsed = st.parsed := by
  have hnone : toNonEmptyString v.id = none := toNonEmptyString_eq_none v.id hid
  have hmap : ∀ cid, mapRawVideoToInsert v cid scrapedAt now = none := by
    intro cid
    unfold mapRawVideoToInsert
    rw [hnone]
  obtain ⟨e1, e2, e3, e4, e5, e6⟩ := ensureChannelRecord_preserves v channelUrl scrapedAt st
  unfold ingestVideo
  simp only [hmap]
  exact ⟨by simp [e6], by simpa using e1, by simpa using e2, by simpa using e4,
    by simpa using e5, by simpa using e3⟩

/-- C6 witness: an all-whitespace id on a fresh state. -/
theorem ingest_invalid_spec_witness :
    (ingestVideo { id := some (.str "   ") } "u" 0 0 {}).invalid = ({} : IngestState).invalid + 1 ∧
      (ingestVideo { id := some (.str "   ") } "u" 0 0 {}).videosTable = ({} : IngestState).videosTable ∧
      (ingestVideo { id := some (.str "   ") } "u" 0 0 {}).knownIds = ({} : IngestState).knownIds ∧
      (ingestVideo { id := some (.str "   ") } "u" 0 0 {}).inserted = ({} : IngestState).inserted ∧
      (ingestVideo { id := some (.str "   ") } "u" 0 0 {}).skippedExisting = ({} : IngestState).skippedExisting ∧
      (ingestVideo { id := some (.str "   ") } "u" 0 0 {}).parsed = ({} : IngestState).parsed :=
  ingest_invalid_spec _ _ _ _ _ (Or.inr (Or.inl ⟨"   ", rfl, by decide⟩))

/- ## C10 -/

/-- Each completed ingestion increments exactly one outcome counter and
leaves the parsed counter alone. -/
theorem ingestVideo_counter (v : RawVideo) (channelUrl : String) (scrapedAt now : Int)
    (st : IngestState) :
    (ingestVideo v channelUrl scrapedAt now st).parsed = st.parsed ∧
      (((ingestVideo v channelUrl scrapedAt now st).inserted = st.inserted + 1 ∧
          (ingestVideo v channelUrl scrapedAt now st).skippedExisting = st.skippedExisting ∧
          (ingestVideo v channelUrl scrapedAt now st).invalid = st.invalid) ∨
        ((ingestVideo v channelUrl scrapedAt now st).inserted = st.inserted ∧
          (ingestVideo v channelUrl scrapedAt now st).skippedExisting = st.skippedExisting + 1 ∧
          (ingestVideo v channelUrl scrapedAt now st).invalid = st.invalid) ∨
        ((ingestVideo v channelUrl scrapedAt now st).inserted = st.inserted ∧
          (ingestVideo v channelUrl scrapedAt now st).skippedExisting = st.skippedExisting ∧
          (ingestVideo v channelUrl scrapedAt now st).invalid = st.invalid + 1)) := by
  obtain ⟨e1, e2, e3, e4, e5, e6⟩ := ensureChannelRecord_preserves v channelUrl scrapedAt st
  unfold ingestVideo
  rcases hm : mapRawVideoToInsert v (ensureChannelRecord v channelUrl scrapedAt st).1.id scrapedAt now
    with _ | mapped
  · simp only [hm]
    exact ⟨by simpa using e3, Or.inr (Or.inr ⟨by simpa using e4, by simpa using e5, by simp [e6]⟩)⟩
  · simp only [hm]
    by_cases hk : mapped.id ∈ (ensureChannelRecord v channelUrl scrapedAt st).2.knownIds
    · rw [if_pos hk]
      exact ⟨by simpa using e3, Or.inr (Or.inl ⟨by simpa using e4, by simp [e5], by simpa using e6⟩)⟩
    · rw [if_neg hk]
      by_cases hins :
          (insertVideoReturning mapped (ensureChannelRecord v channelUrl scrapedAt st).2.videosTable).2 = []
      · rw [if_pos hins]
        exact ⟨by simpa using e3, Or.inr (Or.inl ⟨by simpa using e4, by simp [e5], by simpa using e6⟩)⟩
      · rw [if_neg hins]
        exact ⟨by simpa using e3, Or.inl ⟨by simp [e4], by simpa using e5, by simpa using e6⟩⟩

/-- C10: each completed call to `ingestVideo` increments exactly one of the
inserted / skipped-existing / invalid counters by one, and a run whose
persistence all succeeds ends with parsed = inserted + skippedExisting +
invalid. -/
theorem counter_conservation :
    (∀ (v : RawVideo) (channelUrl : String) (scrapedAt now : Int) (st : IngestState),
      ((ingestVideo v channelUrl scrapedAt now st).inserted = st.inserted + 1 ∧
          (ingestVideo v channelUrl scrapedAt now st).skippedExisting = st.skippedExisting ∧
          (ingestVideo v channelUrl scrapedAt now st).invalid = st.invalid) ∨
        ((ingestVideo v channelUrl scrapedAt now st).inserted = st.inserted ∧
          (ingestVideo v channelUrl scrapedAt now st).skippedExisting = st.skippedExisting + 1 ∧
          (ingestVideo v channelUrl scrapedAt now st).invalid = st.invalid) ∨
        ((ingestVideo v channelUrl scrapedAt now st).inserted = st.inserted ∧
          (ingestVideo v channelUrl scrapedAt now st).skippedExisting = st.skippedExisting ∧
          (ingestVideo v channelUrl scrapedAt now st).invalid = st.invalid + 1)) ∧
    (∀ (feed : List RawVideo) (channelUrl : String) (scrapedAt now : Int) (st : IngestState),
      st.parsed = st.inserted + st.skippedExisting + st.invalid →
      (processFeed feed channelUrl scrapedAt now st).parsed =
        (processFeed feed channelUrl scrapedAt now st).inserted +
          (processFeed feed channelUrl scrapedAt now st).skippedExisting +
          (processFeed feed channelUrl scrapedAt now st).invalid) := by
  constructor
  · intro v channelUrl scrapedAt now st
    exact (ingestVideo_counter v channelUrl scrapedAt now st).2
  · intro feed
    induction feed with
    | nil =>
      intro channelUrl scrapedAt now st h
      simpa [processFeed] using h
    | cons v rest ih =>
      intro channelUrl scrapedAt now st h
      have hstep : processFeed (v :: rest) channelUrl scrapedAt now st =
          processFeed rest channelUrl scrapedAt now
            (ingestVideo v channelUrl scrapedAt now { st with parsed := st.parsed + 1 }) := by
        simp [processFeed]
      rw [hstep]
      apply ih
      have hc := ingestVideo_counter v channelUrl scrapedAt now { st with parsed := st.parsed + 1 }
      have h1 := hc.1
      rcases hc.2 with h2 | h2 | h2 <;>
        · obtain ⟨a, b, c⟩ := h2
          dsimp only at h1 a b c
          omega

/-- C10 witness: ingesting a one-record feed on a fresh state preserves the
parsed = inserted + skippedExisting + invalid invariant. -/
theorem counter_conservation_witness :
    (processFeed [{ id := some (.str "vid1") }] "https://c.example/" 0 0 {}).parsed =
      (processFeed [{ id := some (.str "vid1") }] "https://c.example/" 0 0 {}).inserted +
        (processFeed [{ id := some (.str "vid1") }] "https://c.example/" 0 0 {}).skippedExisting +
        (processFeed [{ id := some (.str "vid1") }] "https://c.example/" 0 0 {}).invalid :=
  counter_conservation.2 [{ id := some (.str "vid1") }] "https://c.example/" 0 0 {} rfl

/- ## C4 -/

/-- C4: re-ingesting a record whose non-empty id is already known
in-memory or already stored leaves exactly one stored row for the id
(the table unchanged, so the row is never refreshed), adds one to the
skipped-existing counter only, and folds the id into the known-id set. -/
theorem ingest_idempotent (v : RawVideo) (channelUrl : String) (scrapedAt now : Int)
    (st : IngestState) (id : String)
    (hid : toNonEmptyString v.id = some id)
    (hnodup : (st.videosTable.map VideoInsert.id).Nodup)
    (hknown : ∀ x ∈ st.knownIds, x ∈ st.videosTable.map VideoInsert.id)
    (hpresent : id ∈ st.knownIds ∨ id ∈ st.videosTable.map VideoInsert.id) :
    ((ingestVideo v channelUrl scrapedAt now st).videosTable.map VideoInsert.id).count id = 1 ∧
      (ingestVideo v channelUrl scrapedAt now st).videosTable = st.videosTable ∧
      (ingestVideo v channelUrl scrapedAt now st).skippedExisting = st.skippedExisting + 1 ∧
      (ingestVideo v channelUrl scrapedAt now st).inserted = st.inserted ∧
      id ∈ (ingestVideo v channelUrl scrapedAt now st).knownIds := by
  obtain ⟨e1, e2, e3, e4, e5, e6⟩ := ensureChannelRecord_preserves v channelUrl scrapedAt st
  have hmem : id ∈ st.videosTable.map VideoInsert.id := by
    rcases hpresent with h | h
    · exact hknown id h
    · exact h
  have hcount : (st.videosTable.map VideoInsert.id).count id = 1 :=
    List.count_eq_one_of_mem hnodup hmem
  have hmap : mapRawVideoToInsert v (ensureChannelRecord v channelUrl scrapedAt st).1.id scrapedAt now =
      some { id := id
             channelId := (ensureChannelRecord v channelUrl scrapedAt st).1.id
             videoUrl := resolveVideoUrl v id
             title := (toNonEmptyString v.title).getD id
             description := toOptionalString v.description
             durationSeconds := toIntegerOrNull v.duration
             publishedTimestamp := toIntegerOrNull v.timestamp
             uploadDate := toNonEmptyString v.upload_date
             uploadedAt := getUploadedAtDate v
             scrapedAt := scrapedAt
             isLive := isLiveVideo v
             rawData := v
             updatedAt := now } := by
    unfold mapRawVideoToInsert
    rw [hid]
  unfold ingestVideo
  simp only [hmap]
  by_cases hk : id ∈ (ensureChannelRecord v channelUrl scrapedAt st).2.knownIds
  · rw [if_pos hk]
    refine ⟨?_, ?_, ?_, ?_, ?_⟩
    · simpa [e1] using hcount
    · simpa using e1
    · simpa using e5
    · simpa using e4
    · simpa [e2] using (e2 ▸ hk)
  · rw [if_neg hk]
    have hany : (ensureChannelRecord v channelUrl scrapedAt st).2.videosTable.any
        (fun r => r.id = id) = true := by
      rw [e1]
      rw [List.any_eq_true]
      obtain ⟨r, hr, hrid⟩ := List.mem_map.mp hmem
      exact ⟨r, hr, by simp [hrid]⟩
    have hins : insertVideoReturning
        { id := id
          channelId := (ensureChannelRecord v channelUrl scrapedAt st).1.id
          videoUrl := resolveVideoUrl v id
          title := (toNonEmptyString v.title).getD id
          description := toOptionalString v.description
          durationSeconds := toIntegerOrNull v.duration
          publishedTimestamp := toIntegerOrNull v.timestamp
          uploadDate := toNonEmptyString v.upload_date
          uploadedAt := getUploadedAtDate v
          scrapedAt := scrapedAt
          isLive := isLiveVideo v
          rawData := v
          updatedAt := now }
        (ensureChannelRecord v channelUrl scrapedAt st).2.videosTable =
        ((ensureChannelRecord v channelUrl scrapedAt st).2.videosTable, []) := by
      unfold insertVideoReturning
      rw [if_pos hany]
    simp only [hins]
    refine ⟨?_, ?_, ?_, ?_, ?_⟩
    · simpa [e1] using hcount
    · simpa using e1
    · simpa using e5
    · simpa using e4
    · simp

/-- C4 witness: id `"abc123"` already stored, fresh in-memory set. -/
theorem ingest_idempotent_witness :
    ((ingestVideo { id := some (.str "abc123") } "u" 0 0 c4State).videosTable.map VideoInsert.id).count "abc123" = 1 ∧
      (ingestVideo { id := some (.str "abc123") } "u" 0 0 c4State).videosTable = c4State.videosTable ∧
      (ingestVideo { id := some (.str "abc123") } "u" 0 0 c4State).skippedExisting = c4State.skippedExisting + 1 ∧
      (ingestVideo { id := some (.str "abc123") } "u" 0 0 c4State).inserted = c4State.inserted ∧
      "abc123" ∈ (ingestVideo { id := some (.str "abc123") } "u" 0 0 c4State).knownIds :=
  ingest_idempotent _ _ _ _ c4State "abc123" (by decide) (by decide) (by decide) (Or.inr (by decide))

/- ## C5 -/

theorem retryDelays_self (B M a : Nat) : retryDelays B M a a = [] := by
  simp [retryDelays]

theorem retryDelays_cons (B M a k : Nat) (h1 : 1 ≤ a) (h2 : a < k) :
    retryDelays B M a k = min (B * 2 ^ (a - 1)) M :: retryDelays B M (a + 1) k := by
  unfold retryDelays
  rw [show k - a = (k - (a + 1)) + 1 by omega, List.range_succ_eq_map]
  simp only [List.map_cons, List.map_map]
  congr 1
  apply List.map_congr_left
  intro i _
  show B * 2 ^ (a - 1 + (i + 1)) ⊓ M = B * 2 ^ (a + 1 - 1 + i) ⊓ M
  have he : a - 1 + (i + 1) = a + 1 - 1 + i := by omega
  rw [he]

/-- Characterization of the retry loop along a prefix of transient
failures. -/
theorem retryGo_spec {α : Type} (op : Nat → Except JsErr α) (A B M : Nat) :
    ∀ (fuel a k : Nat), a + fuel = A + 1 → 1 ≤ a → a ≤ k → k ≤ A →
    (∀ i, a ≤ i → i < k → ∃ e, op i = .error e ∧ isTransientDatabaseError e = true) →
    ((∀ v, op k = .ok v → retryGo op A B M a fuel = (.ok v, retryDelays B M a k)) ∧
     (∀ e, op k = .error e → isTransientDatabaseError e = false →
        retryGo op A B M a fuel = (.error e, retryDelays B M a k)) ∧
     (∀ e, op k = .error e → k = A → retryGo op A B M a fuel = (.error e, retryDelays B M a k))) := by
  intro fuel
  induction fuel with
  | zero =>
    intro a k h1 h2 h3 h4 hprev
    omega
  | succ n ih =>
    intro a k h1 h2 h3 h4 hprev
    by_cases hak : a = k
    · subst hak
      refine ⟨?_, ?_, ?_⟩
      · intro v hv
        simp only [retryGo, hv, retryDelays_self]
      · intro e he hnt
        simp only [retryGo, he]
        rw [if_pos (Or.inr (by simp [hnt])), retryDelays_self]
      · intro e he hkA
        simp only [retryGo, he]
        rw [if_pos (Or.inl hkA), retryDelays_self]
    · have halt : a < k := lt_of_le_of_ne h3 hak
      obtain ⟨e, he, ht⟩ := hprev a (le_refl a) halt
      have hcond : ¬(a = A ∨ ¬isTransientDatabaseError e = true) := by
        push_neg
        exact ⟨by omega, by simp [ht]⟩
      have hrec := ih (a + 1) k (by omega) (by omega) (by omega) h4
        (fun i hi1 hi2 => hprev i (by omega) hi2)
      have hstep : retryGo op A B M a (n + 1) =
          ((retryGo op A B M (a + 1) n).1,
            min (B * 2 ^ (a - 1)) M :: (retryGo op A B M (a + 1) n).2) := by
        simp only [retryGo, he]
        rw [if_neg hcond]
      refine ⟨?_, ?_, ?_⟩
      · intro v hv
        rw [hstep, hrec.1 v hv, retryDelays_cons B M a k h2 halt]
      · intro e2 he2 hnt
        rw [hstep, hrec.2.1 e2 he2 hnt, retryDelays_cons B M a k h2 halt]
      · intro e2 he2 hkA
        rw [hstep, hrec.2.2 e2 he2 hkA, retryDelays_cons B M a k h2 halt]

/-- C5: the retry wrapper retries only transient errors, waiting
`base·2^(attempt-1)` capped at the max delay before each retry; a
non-transient error is re-raised immediately, and exhausting the attempt
budget re-raises the last error.  `k` is the first attempt that does not
fail transiently (all earlier attempts failed with a transient error). -/
theorem withDatabaseRetry_spec {α : Type} (mr mb mm : Nat) (op : Nat → Except JsErr α) (k : Nat)
    (hk1 : 1 ≤ k) (hk2 : k ≤ max 1 mr)
    (hprev : ∀ i, 1 ≤ i → i < k → ∃ e, op i = .error e ∧ isTransientDatabaseError e = true) :
    (∀ v, op k = .ok v →
      withDatabaseRetry mr mb mm op =
        (.ok v, (List.range (k - 1)).map (fun i => min (max 50 mb * 2 ^ i) (max (max 50 mb) mm)))) ∧
    (∀ e, op k = .error e → isTransientDatabaseError e = false →
      withDatabaseRetry mr mb mm op =
        (.error e, (List.range (k - 1)).map (fun i => min (max 50 mb * 2 ^ i) (max (max 50 mb) mm)))) ∧
    (∀ e, op k = .error e → k = max 1 mr →
      withDatabaseRetry mr mb mm op =
        (.error e, (List.range (k - 1)).map (fun i => min (max 50 mb * 2 ^ i) (max (max 50 mb) mm)))) := by
  have h := retryGo_spec op (max 1 mr) (max 50 mb) (max (max 50 mb) mm) (max 1 mr) 1 k
    (by omega) (le_refl 1) hk1 hk2 hprev
  have hw : withDatabaseRetry mr mb mm op =
      retryGo op (max 1 mr) (max 50 mb) (max (max 50 mb) mm) 1 (max 1 mr) := rfl
  have hd : retryDelays (max 50 mb) (max (max 50 mb) mm) 1 k =
      (List.range (k - 1)).map (fun i => min (max 50 mb * 2 ^ i) (max (max 50 mb) mm)) := by
    unfold retryDelays
    simp
  refine ⟨?_, ?_, ?_⟩
  · intro v hv
    rw [hw, h.1 v hv, hd]
  · intro e he hnt
    rw [hw, h.2.1 e he hnt, hd]
  · intro e he hkA
    rw [hw, h.2.2 e he hkA, hd]

/-- C5 witness: with 5 attempts allowed, base 100 ms and cap 10000 ms, the
wrapper sleeps 100 then 200 ms and re-raises the non-transient third
error immediately. -/
theorem withDatabaseRetry_spec_witness :
    withDatabaseRetry 5 100 10000 c5op =
      (.error (JsErr.mk true none "boom" none), [100, 200]) := by
  have h := (withDatabaseRetry_spec 5 100 10000 c5op 3 (by norm_num) (by norm_num)
    (fun i h1 h2 =>
      ⟨JsErr.mk true (some "ECONNRESET") "reset" none, by unfold c5op; rw [if_pos h2], by decide⟩)).2.1
    (JsErr.mk true none "boom" none) (by rfl) (by decide)
  rw [h]
  rfl

/- ## C2 -/

theorem daysFromCivil_pred (y m d : Int) :
    daysFromCivil y m (d - 1) = daysFromCivil y m d - 1 := by
  unfold daysFromCivil
  split_ifs <;> ring

/-- Decrementing the UTC day-of-month via the calendar is exactly
subtracting one day of milliseconds. -/
theorem setUTCDatePrevDay_eq (ms : Int) : setUTCDatePrevDay ms = ms - 86400000 := by
  simp only [setUTCDatePrevDay]
  rw [daysFromCivil_pred, daysFromCivil_civilFromDays]
  ring

/-- C2 (amended): the cutoff is one calendar day before the date parsed
from the newest stored upload-date string whenever that string is present,
non-empty and parseable — the newest uploaded-at instant is ignored in that
case — and only otherwise one day before the newest uploaded-at instant. -/
theorem computeDateAfter_spec :
    (∀ (k : SortKeyInfo) (s : String) (secs : Int),
      k.uploadDate = some s → s ≠ "" → parseUploadDate s = some secs →
      computeDateAfter (some k) = some (formatDateAsYyyymmdd ((secs - 86400) * 1000))) ∧
    (∀ (k : SortKeyInfo) (ms : Int),
      (k.uploadDate = none ∨ ∃ s, k.uploadDate = some s ∧ s ≠ "" ∧ parseUploadDate s = none) →
      k.uploadedAt = some ms →
      computeDateAfter (some k) = some (formatDateAsYyyymmdd (ms - 86400000))) := by
  constructor
  · intro k s secs hs hne hparse
    have hu : uploadDateStringToDate (some s) = some (secs * 1000) := by
      simp only [uploadDateStringToDate]
      rw [if_neg hne, hparse]
    unfold computeDateAfter
    simp only [hs, hne, if_false, hu]
    rw [setUTCDatePrevDay_eq]
    have he : secs * 1000 - 86400000 = (secs - 86400) * 1000 := by ring
    rw [he]
  · intro k ms hfail hms
    unfold computeDateAfter
    rcases hfail with h | ⟨s, hs, hne, hparse⟩
    · simp only [h, hms]
      rw [setUTCDatePrevDay_eq]
    · have hu : uploadDateStringToDate (some s) = none := by
        simp only [uploadDateStringToDate]
        rw [if_neg hne, hparse]
      simp only [hs, hne, if_false, hu, hms]
      rw [setUTCDatePrevDay_eq]

/-- C2 witness: a snapshot whose newest stored upload-date string is
`"20240115"` gets the cutoff for one day before 2024-01-15 regardless of
the stored uploaded-at instant. -/
theorem computeDateAfter_spec_witness :
    computeDateAfter (some ⟨some "20240115", some 1717200000000⟩) =
      some (formatDateAsYyyymmdd ((1705276800 - 86400) * 1000)) :=
  computeDateAfter_spec.1 ⟨some "20240115", some 1717200000000⟩ "20240115" 1705276800
    rfl (by decide)
    (by rw [parseUploadDate_digits "20240115" rfl (by decide)]; decide)

/-- C2 counterexample: with newest upload-date `"20240115"` and a newest
uploaded-at instant of 2024-06-01T00:00Z (the later of the two), the claim
prescribes `"20240531"` (one day before the later instant), but the code
returns `"20240114"`. -/
theorem computeDateAfter_claim_false :
    computeDateAfter (some ⟨some "20240115", some 1717200000000⟩) = some "20240114" ∧
      formatDateAsYyyymmdd (1717200000000 - 86400000) = "20240531" ∧
      parseUploadDate "20240115" = some 1705276800 ∧
      (1705276800000 : Int) < 1717200000000 ∧
      computeDateAfter (some ⟨some "20240115", some 1717200000000⟩) ≠ some "20240531" := by
  have hp : parseUploadDate "20240115" = some 1705276800 := by
    rw [parseUploadDate_digits "20240115" rfl (by decide)]
    decide
  have hu : uploadDateStringToDate (some "20240115") = some 1705276800000 := by
    simp only [uploadDateStringToDate]
    rw [if_neg (by decide), hp]
    decide
  have hc : computeDateAfter (some ⟨some "20240115", some 1717200000000⟩) =
      some (formatDateAsYyyymmdd (setUTCDatePrevDay 1705276800000)) := by
    simp only [computeDateAfter]
    rw [if_neg (by decide : ¬("20240115" : String) = "")]
    simp only [hu]
  rw [hc, setUTCDatePrevDay_eq]
  refine ⟨by decide, by decide, hp, by decide, by decide⟩

/- ## C9 helper lemmas -/

theorem archiveKeyLoop_nil_iff (id : String) (keys : List String) : ∀ seen,
    (archiveKeyLoop id keys seen).2 = [] ↔
      ∀ k ∈ keys, toLowerStr k = "" ∨ (toLowerStr k ++ " " ++ id ++ "\n") ∈ seen := by
  induction keys with
  | nil => intro seen; simp [archiveKeyLoop]
  | cons k rest ih =>
    intro seen
    simp only [archiveKeyLoop]
    by_cases h1 : toLowerStr k = ""
    · rw [if_pos h1, ih]
      constructor
      · intro h k' hk'
        rcases List.mem_cons.mp hk' with rfl | hk'
        · exact Or.inl h1
        · exact h k' hk'
      · intro h k' hk'
        exact h k' (List.mem_cons_of_mem _ hk')
    · rw [if_neg h1]
      by_cases h2 : (toLowerStr k ++ " " ++ id ++ "\n") ∈ seen
      · rw [if_pos h2, ih]
        constructor
        · intro h k' hk'
          rcases List.mem_cons.mp hk' with rfl | hk'
          · exact Or.inr h2
          · exact h k' hk'
        · intro h k' hk'
          exact h k' (List.mem_cons_of_mem _ hk')
      · rw [if_neg h2]
        constructor
        · intro h
          exact absurd h (by simp)
        · intro h
          rcases h k (by simp) with hc | hc
          · exact absurd hc h1
          · exact absurd hc h2

theorem archiveKeyLoop_seen_mem (id : String) (keys : List String) : ∀ seen s,
    s ∈ (archiveKeyLoop id keys seen).1 ↔
      s ∈ (archiveKeyLoop id keys seen).2 ∨ s ∈ seen := by
  induction keys with
  | nil => intro seen s; simp [archiveKeyLoop]
  | cons k rest ih =>
    intro seen s
    simp only [archiveKeyLoop]
    by_cases h1 : toLowerStr k = ""
    · rw [if_pos h1]
      exact ih seen s
    · rw [if_neg h1]
      by_cases h2 : (toLowerStr k ++ " " ++ id ++ "\n") ∈ seen
      · rw [if_pos h2]
        exact ih seen s
      · rw [if_neg h2]
        have hih := ih ((toLowerStr k ++ " " ++ id ++ "\n") :: seen) s
        simp only [List.mem_cons] at hih ⊢
        tauto

theorem archiveEntryLoop_seen_mem (entries : List DownloadArchiveEntry) : ∀ seen s,
    s ∈ (archiveEntryLoop entries seen).1 ↔
      s ∈ (archiveEntryLoop entries seen).2 ∨ s ∈ seen := by
  induction entries with
  | nil => intro seen s; simp [archiveEntryLoop]
  | cons e rest ih =>
    intro seen s
    simp only [archiveEntryLoop, List.mem_append]
    rw [ih, archiveKeyLoop_seen_mem]
    tauto

theorem archiveEntryLoop_nil_iff (entries : List DownloadArchiveEntry) : ∀ seen,
    (archiveEntryLoop entries seen).2 = [] ↔
      ∀ e ∈ entries, ∀ k ∈ effectiveExtractorKeys e,
        toLowerStr k = "" ∨ (toLowerStr k ++ " " ++ e.id ++ "\n") ∈ seen := by
  induction entries with
  | nil => intro seen; simp [archiveEntryLoop]
  | cons e rest ih =>
    intro seen
    simp only [archiveEntryLoop, List.append_eq_nil]
    constructor
    · rintro ⟨h1, h2⟩ e' he' k hk
      rcases List.mem_cons.mp he' with rfl | he'
      · exact (archiveKeyLoop_nil_iff e'.id _ seen).mp h1 k hk
      · rcases (ih _).mp h2 e' he' k hk with hc | hc
        · exact Or.inl hc
        · have h4 := (archiveKeyLoop_seen_mem e.id (effectiveExtractorKeys e) seen _).mp hc
          rw [h1] at h4
          simp only [List.not_mem_nil, false_or] at h4
          exact Or.inr h4
    · intro h
      have h1 : (archiveKeyLoop e.id (effectiveExtractorKeys e) seen).2 = [] :=
        (archiveKeyLoop_nil_iff _ _ seen).mpr (fun k hk => h e (by simp) k hk)
      refine ⟨h1, (ih _).mpr ?_⟩
      intro e' he' k hk
      rcases h e' (List.mem_cons_of_mem _ he') k hk with hc | hc
      · exact Or.inl hc
      · right
        rw [archiveKeyLoop_seen_mem]
        exact Or.inr hc

/-- C9: the break-on-existing flag is on exactly when the dedup archive file
was actually produced — which happens precisely when some stored archive
entry contributes an extractor key with a non-empty lower-casing — and at
least one known video id exists and playlist backfill is not active. -/
theorem breakOnExisting_iff (state : ChannelBootstrapState) :
    mainBreakOnExisting state = true ↔
      ((state.archiveEntries ≠ [] ∧
          ∃ e ∈ state.archiveEntries, ∃ k ∈ effectiveExtractorKeys e, toLowerStr k ≠ "") ∧
        0 < state.knownVideoIds.card ∧ needsPlaylistBackfill state = false) := by
  have harch : (createDownloadArchiveFile state.archiveEntries).isSome = true ↔
      (state.archiveEntries ≠ [] ∧
        ∃ e ∈ state.archiveEntries, ∃ k ∈ effectiveExtractorKeys e, toLowerStr k ≠ "") := by
    unfold createDownloadArchiveFile
    by_cases hne : state.archiveEntries = []
    · rw [if_pos hne]
      simp [hne]
    · rw [if_neg hne]
      by_cases hl : buildArchiveLines state.archiveEntries = []
      · rw [if_pos hl]
        simp only [Option.isSome_none, Bool.false_eq_true, false_iff]
        rintro ⟨_, e, he, k, hk, hkne⟩
        unfold buildArchiveLines at hl
        have := (archiveEntryLoop_nil_iff _ []).mp hl e he k hk
        simp only [List.not_mem_nil, or_false] at this
        exact absurd this hkne
      · rw [if_neg hl]
        simp only [Option.isSome_some, true_iff]
        refine ⟨hne, ?_⟩
        by_contra hcon
        push_neg at hcon
        apply hl
        unfold buildArchiveLines
        exact (archiveEntryLoop_nil_iff _ []).mpr
          (fun e he k hk => Or.inl (hcon e he k hk))
  unfold mainBreakOnExisting
  simp only [Bool.and_eq_true, Bool.not_eq_true', decide_eq_true_eq]
  rw [harch]
  tauto

/- ## C8 helper lemmas: trimming, takeWhile / dropWhile, collapse -/

theorem dropWhile_head_false (p : Char → Bool) :
    ∀ (l : List Char) c t, l.dropWhile p = c :: t → p c = false := by
  intro l
  induction l with
  | nil => intro c t h; cases h
  | cons a r ih =>
    intro c t h
    rw [List.dropWhile_cons] at h
    by_cases hp : p a = true
    · rw [if_pos hp] at h
      exact ih c t h
    · rw [if_neg hp] at h
      cases h
      exact Bool.not_eq_true _ ▸ hp

theorem dropWhile_eq_self_head (p : Char → Bool) (m : List Char)
    (h : ∀ c, m.head? = some c → p c = false) : m.dropWhile p = m := by
  cases m with
  | nil => rfl
  | cons c r =>
    rw [List.dropWhile_cons, h c rfl]
    simp

theorem dropWhile_getLast (p : Char → Bool) : ∀ (m : List Char),
    m.dropWhile p ≠ [] → (m.dropWhile p).getLast? = m.getLast? := by
  intro m
  induction m with
  | nil => intro h; exact absurd rfl h
  | cons a r ih =>
    intro h
    rw [List.dropWhile_cons] at h ⊢
    by_cases hp : p a = true
    · rw [if_pos hp] at h ⊢
      have hr : r ≠ [] := by
        intro hr0
        rw [hr0] at h
        exact h rfl
      rw [ih h]
      cases r with
      | nil => exact absurd rfl hr
      | cons b r' => rw [List.getLast?_cons_cons]
    · rw [if_neg hp]

theorem jsTrimList_head_not_ws (l : List Char) (c : Char)
    (h : (jsTrimList l).head? = some c) : isJsWs c = false := by
  unfold jsTrimList at h
  rw [List.head?_reverse] at h
  by_cases hX : (l.dropWhile isJsWs).reverse.dropWhile isJsWs = []
  · rw [hX] at h
    cases h
  · rw [dropWhile_getLast _ _ hX, List.getLast?_reverse] at h
    cases hA : l.dropWhile isJsWs with
    | nil =>
      rw [hA] at h
      cases h
    | cons c0 t0 =>
      rw [hA] at h
      simp only [List.head?_cons, Option.some.injEq] at h
      subst h
      exact dropWhile_head_false isJsWs l c0 t0 hA

theorem jsTrimList_getLast_not_ws (l : List Char) (c : Char)
    (h : (jsTrimList l).getLast? = some c) : isJsWs c = false := by
  unfold jsTrimList at h
  rw [List.getLast?_reverse] at h
  cases hX : (l.dropWhile isJsWs).reverse.dropWhile isJsWs with
  | nil =>
    rw [hX] at h
    cases h
  | cons c0 t0 =>
    rw [hX] at h
    simp only [List.head?_cons, Option.some.injEq] at h
    subst h
    exact dropWhile_head_false isJsWs _ c0 t0 hX

theorem jsTrimList_idem (l : List Char) : jsTrimList (jsTrimList l) = jsTrimList l := by
  have h1 : (jsTrimList l).dropWhile isJsWs = jsTrimList l :=
    dropWhile_eq_self_head _ _ (fun c hc => jsTrimList_head_not_ws l c hc)
  show ((((jsTrimList l).dropWhile isJsWs).reverse.dropWhile isJsWs)).reverse = jsTrimList l
  rw [h1]
  have h2 : (jsTrimList l).reverse.dropWhile isJsWs = (jsTrimList l).reverse :=
    dropWhile_eq_self_head _ _ (fun c hc => by
      rw [List.head?_reverse] at hc
      exact jsTrimList_getLast_not_ws l c hc)
  rw [h2, List.reverse_reverse]

